import Mathlib

set_option maxRecDepth 8000

/-!
# Verification of the AHRQ deduplication / record-matching module

Shallow embedding of `AHRQDeduplicator`
(`ahrq_project/01_search_scripts/deduplication_module.py`) and proofs about
the matching tiers, the normalizers and the title-similarity scorer.

Modelling conventions:
* Python strings are Lean `String`s / `List Char`; character classes
  (`\w`, `\s`, lower-casing) are modelled over ASCII.
* A missing (`NaN`) cell of a pandas row is modelled by `Option.none` at the
  normalizer level; record fields are plain strings where a missing cell and
  the empty string behave identically in the code paths modelled here.
* Float arithmetic of the similarity score is modelled in `ℚ`.  At every
  concrete point used below the CPython float computation agrees exactly
  (the weights 0.4/0.3/0.3 sum to 1.0 in IEEE double arithmetic, and the
  values compared in theorems are exactly representable).
* Exceptions (`IndexError` from `''.split()[0]`-style code, `KeyError` from
  `.loc`, `OverflowError` from `int(float('inf'))`, `ValueError` from
  `float`) are modelled by `Except PyErr`.
* The free-text `match_details` field of a match row is presentation-only
  and is omitted from the model.
-/

namespace AHRQ

/-- Python exceptions that the modelled code can raise. -/
inductive PyErr where
  | indexError
  | keyError
  | valueError
  | overflowError
deriving DecidableEq, Repr

deriving instance DecidableEq for Except

/-! ## Python string primitives (ASCII scope) -/

/-- Python `str.isspace` characters relevant to `\s` / `split()` / `strip()`. -/
def pyIsSpace (c : Char) : Bool :=
  c = ' ' || c = '\t' || c = '\n' || c = '\x0d' || c = '\x0b' || c = '\x0c'

/-- Python regex `\w` over ASCII: letters, digits, underscore. -/
def isWordChar (c : Char) : Bool :=
  c.isAlpha || c.isDigit || c = '_'

/-- `str.lower()` (ASCII). -/
def lowerStr (s : List Char) : List Char := s.map Char.toLower

/-- `str.strip()`: remove leading and trailing whitespace. -/
def stripChars (s : List Char) : List Char :=
  ((s.dropWhile pyIsSpace).reverse.dropWhile pyIsSpace).reverse

/-- `str.split()` with no separator: maximal runs of non-whitespace. -/
def splitWsAux : List Char → List Char → List (List Char)
  | [], acc => if acc = [] then [] else [acc.reverse]
  | c :: cs, acc =>
    if pyIsSpace c then
      if acc = [] then splitWsAux cs [] else acc.reverse :: splitWsAux cs []
    else splitWsAux cs (c :: acc)

/-- `str.split()` with no separator argument. -/
def splitWs (s : List Char) : List (List Char) := splitWsAux s []

/-- `str.split(sep)` for a one-character separator: keeps empty pieces. -/
def splitSepAux (sep : Char) : List Char → List Char → List (List Char)
  | [], acc => [acc.reverse]
  | c :: cs, acc =>
    if c = sep then acc.reverse :: splitSepAux sep cs []
    else splitSepAux sep cs (c :: acc)

/-- `str.split(sep)` for a one-character separator. -/
def splitSep (sep : Char) (s : List Char) : List (List Char) := splitSepAux sep s []

/-- `s.lower()` on a `String`. -/
def pyLower (s : String) : String := ⟨lowerStr s.data⟩

/-! ## `_normalize_doi`

The regex `10\.\d{4,}[/\.\-\w]+` searched leftmost with greedy quantifiers
(`\d{4,}` backtracks by one digit when `[/\.\-\w]+` would otherwise be
empty, which is possible only when at least five digits are available). -/

/-- Characters matched by the class `[/\.\-\w]`. -/
def doiBodyChar (c : Char) : Bool :=
  c = '/' || c = '.' || c = '-' || isWordChar c

/-- Match `10\.\d{4,}[/\.\-\w]+` anchored at the start of `s`
(with the backtracking behaviour of the greedy `\d{4,}`). -/
def doiMatchAt : List Char → Option (List Char)
  | '1' :: '0' :: '.' :: rest =>
    let ds := rest.takeWhile Char.isDigit
    let after := rest.dropWhile Char.isDigit
    if 4 ≤ ds.length then
      let cls := after.takeWhile doiBodyChar
      if cls ≠ [] then some ('1' :: '0' :: '.' :: (ds ++ cls))
      else if 5 ≤ ds.length then some ('1' :: '0' :: '.' :: ds)
      else none
    else none
  | _ => none

/-- `re.search` of the DOI pattern: leftmost position where it matches. -/
def searchDoi : List Char → Option (List Char)
  | [] => none
  | c :: cs =>
    match doiMatchAt (c :: cs) with
    | some m => some m
    | none => searchDoi cs

/-- Match `doi\.org/(10\.\d{4,}[/\.\-\w]+)` anchored at the start;
returns capture group 1. -/
def doiOrgAt (s : List Char) : Option (List Char) :=
  if s.take 8 = "doi.org/".data then doiMatchAt (s.drop 8) else none

/-- `re.search` of the `doi.org/` pattern. -/
def searchDoiOrg : List Char → Option (List Char)
  | [] => none
  | c :: cs =>
    match doiOrgAt (c :: cs) with
    | some m => some m
    | none => searchDoiOrg cs

/-- Match `dx\.doi\.org/(10\.\d{4,}[/\.\-\w]+)` anchored at the start;
returns capture group 1. -/
def dxDoiOrgAt (s : List Char) : Option (List Char) :=
  if s.take 11 = "dx.doi.org/".data then doiMatchAt (s.drop 11) else none

/-- `re.search` of the `dx.doi.org/` pattern. -/
def searchDxDoiOrg : List Char → Option (List Char)
  | [] => none
  | c :: cs =>
    match dxDoiOrgAt (c :: cs) with
    | some m => some m
    | none => searchDxDoiOrg cs

/-- `AHRQDeduplicator._normalize_doi`.  `none` models a missing (`NaN`)
cell.  Tries the three patterns in order; when none matches, the code
returns the lower-cased stripped input (`doi_str`), not the empty string. -/
def normalizeDoi : Option String → String
  | none => ""
  | some d =>
    let s := stripChars (lowerStr d.data)
    match searchDoi s with
    | some m => ⟨m⟩
    | none =>
      match searchDoiOrg s with
      | some m => ⟨m⟩
      | none =>
        match searchDxDoiOrg s with
        | some m => ⟨m⟩
        | none => ⟨s⟩

/-! ## `_normalize_title` -/

/-- `re.sub(r'\s+', ' ', s)`: collapse each whitespace run to a single
space.  The flag records whether the previous character was part of a
whitespace run already replaced. -/
def collapseWsAux : Bool → List Char → List Char
  | _, [] => []
  | inRun, c :: cs =>
    if pyIsSpace c then
      if inRun then collapseWsAux true cs else ' ' :: collapseWsAux true cs
    else c :: collapseWsAux false cs

/-- `re.sub(r'\s+', ' ', s)`. -/
def collapseWs (s : List Char) : List Char := collapseWsAux false s

/-- The stop-word list removed by `_normalize_title`. -/
def stopWords : List (List Char) :=
  ["the", "a", "an", "and", "or", "but", "in", "on", "at", "to",
   "for", "of", "with", "by"].map String.data

/-- `AHRQDeduplicator._normalize_title`: lower-case, replace each
non-word non-space character by a space, collapse whitespace, drop
stop words, re-join with single spaces, strip. -/
def normalizeTitle : Option String → String
  | none => ""
  | some t =>
    let s1 := lowerStr t.data
    let s2 := s1.map (fun c => if isWordChar c || pyIsSpace c then c else ' ')
    let s3 := collapseWs s2
    let ws := (splitWs s3).filter (fun w => ¬ w ∈ stopWords)
    ⟨stripChars (List.intercalate [' '] ws)⟩

/-! ## `_extract_first_author` -/

/-- `AHRQDeduplicator._extract_first_author`.  `none` models a missing
cell.  A non-empty input consisting only of whitespace, containing no `;`
and at most one `,`, reaches `authors_str.split()[0]` with an empty split
list and raises `IndexError`. -/
def extractFirstAuthor : Option String → Except PyErr String
  | none => .ok ""
  | some a =>
    let s := a.data
    let firstSeg : Except PyErr (List Char) :=
      if s.contains ';' then .ok ((splitSep ';' s).headD [])
      else if s.contains ',' && 1 < List.count ',' s then .ok ((splitSep ',' s).headD [])
      else if s = [] then .ok []
      else
        match splitWs s with
        | [] => .error .indexError
        | w :: _ => .ok w
    match firstSeg with
    | .error e => .error e
    | .ok fa =>
      if fa ≠ [] then
        match (splitWs (stripChars fa)).getLast? with
        | some p => .ok ⟨p⟩
        | none => .ok ""
      else .ok ""

/-- Modelled from the spec: `extract_first_author_surname(raw)` as the spec
describes it — split on `;` if present, else on `,` when there is more than
one comma, else on whitespace; take the first segment; return its last
whitespace-delimited token; missing input yields the empty string. -/
def claimFirstAuthorSurname : Option String → String
  | none => ""
  | some a =>
    let s := a.data
    let seg :=
      if s.contains ';' then (splitSep ';' s).headD []
      else if s.contains ',' && 1 < List.count ',' s then (splitSep ',' s).headD []
      else (splitWs s).headD []
    ⟨((splitWs seg).getLast?).getD []⟩

/-! ## `difflib.SequenceMatcher` (as used by `_calculate_title_similarity`)

`SequenceMatcher(None, a, b).ratio()` with `isjunk = None` and
`autojunk = True`: `b2j` maps each character of `b` to its ascending list
of positions, except that when `len(b) >= 200` the "popular" characters
(more than `len(b)//100 + 1` occurrences) are dropped from `b2j`.  The junk
set `bjunk` is empty (`isjunk` is `None`), so the two junk-extension loops
of `find_longest_match` never fire; they are modelled anyway. -/

/-- A character of `b` is "popular" (dropped by autojunk). -/
def popularChar (b : List Char) (c : Char) : Bool :=
  200 ≤ b.length && b.length / 100 + 1 < List.count c b

/-- `b2j.get(c, [])`: ascending positions of `c` in `b`, with popular
characters removed. -/
def b2j (b : List Char) (c : Char) : List Nat :=
  if popularChar b c then []
  else (List.range b.length).filter (fun j => b.getD j ' ' = c)

/-- State of `find_longest_match`: `besti`, `bestj`, `bestsize`. -/
structure FlmState where
  besti : Nat
  bestj : Nat
  bestsize : Nat
deriving DecidableEq, Repr

/-- Inner loop of the `find_longest_match` dynamic programme, over the
candidate columns `js = b2j[a[i]]` (ascending).  `j2lenOld` is the previous
row; entries are read at `j - 1` (a read at Python index `-1` yields `0`,
modelled by the `j = 0` test).  `continue` for `j < blo`, `break` for
`j ≥ bhi`. -/
def innerLoop (blo bhi i : Nat) (j2lenOld : Nat → Nat) :
    List Nat → (Nat → Nat) → FlmState → ((Nat → Nat) × FlmState)
  | [], newj2len, best => (newj2len, best)
  | j :: js, newj2len, best =>
    if j < blo then innerLoop blo bhi i j2lenOld js newj2len best
    else if bhi ≤ j then (newj2len, best)
    else
      let k := (if j = 0 then 0 else j2lenOld (j - 1)) + 1
      let newj2len' : Nat → Nat := fun x => if x = j then k else newj2len x
      let best' : FlmState :=
        if best.bestsize < k then ⟨i + 1 - k, j + 1 - k, k⟩ else best
      innerLoop blo bhi i j2lenOld js newj2len' best'

/-- Outer loop of the dynamic programme over the rows `i ∈ range(alo, ahi)`. -/
def dpRows (a b : List Char) (blo bhi : Nat) :
    List Nat → (Nat → Nat) → FlmState → ((Nat → Nat) × FlmState)
  | [], j2len, best => (j2len, best)
  | i :: is, j2len, best =>
    let st := innerLoop blo bhi i j2len (b2j b (a.getD i ' ')) (fun _ => 0) best
    dpRows a b blo bhi is st.1 st.2

/-- First extension loop: extend the match to the left over non-junk
equal characters.  Fuel-based structural recursion: each iteration
decrements `besti`, so any fuel at least the initial `besti` makes the
loop stop only when its guard fails. -/
def extLoop1 (a b : List Char) (bjunk : Char → Bool) (alo blo : Nat) :
    Nat → FlmState → FlmState
  | 0, st => st
  | fuel + 1, st =>
    if alo < st.besti ∧ blo < st.bestj ∧ bjunk (b.getD (st.bestj - 1) ' ') = false
        ∧ a.getD (st.besti - 1) ' ' = b.getD (st.bestj - 1) ' ' then
      extLoop1 a b bjunk alo blo fuel ⟨st.besti - 1, st.bestj - 1, st.bestsize + 1⟩
    else st

/-- Second extension loop: extend the match to the right over non-junk
equal characters.  Each iteration needs `besti + bestsize < ahi`, so any
fuel at least `ahi` makes the loop stop only when its guard fails. -/
def extLoop2 (a b : List Char) (bjunk : Char → Bool) (ahi bhi : Nat) :
    Nat → FlmState → FlmState
  | 0, st => st
  | fuel + 1, st =>
    if st.besti + st.bestsize < ahi ∧ st.bestj + st.bestsize < bhi
        ∧ bjunk (b.getD (st.bestj + st.bestsize) ' ') = false
        ∧ a.getD (st.besti + st.bestsize) ' ' = b.getD (st.bestj + st.bestsize) ' ' then
      extLoop2 a b bjunk ahi bhi fuel ⟨st.besti, st.bestj, st.bestsize + 1⟩
    else st

/-- Third extension loop: extend to the left over junk characters. -/
def extLoop3 (a b : List Char) (bjunk : Char → Bool) (alo blo : Nat) :
    Nat → FlmState → FlmState
  | 0, st => st
  | fuel + 1, st =>
    if alo < st.besti ∧ blo < st.bestj ∧ bjunk (b.getD (st.bestj - 1) ' ') = true
        ∧ a.getD (st.besti - 1) ' ' = b.getD (st.bestj - 1) ' ' then
      extLoop3 a b bjunk alo blo fuel ⟨st.besti - 1, st.bestj - 1, st.bestsize + 1⟩
    else st

/-- Fourth extension loop: extend to the right over junk characters. -/
def extLoop4 (a b : List Char) (bjunk : Char → Bool) (ahi bhi : Nat) :
    Nat → FlmState → FlmState
  | 0, st => st
  | fuel + 1, st =>
    if st.besti + st.bestsize < ahi ∧ st.bestj + st.bestsize < bhi
        ∧ bjunk (b.getD (st.bestj + st.bestsize) ' ') = true
        ∧ a.getD (st.besti + st.bestsize) ' ' = b.getD (st.bestj + st.bestsize) ' ' then
      extLoop4 a b bjunk ahi bhi fuel ⟨st.besti, st.bestj, st.bestsize + 1⟩
    else st

/-- `SequenceMatcher.find_longest_match(alo, ahi, blo, bhi)`.  The left
extension loops get fuel `besti` of their input state and the right ones
fuel `ahi`; both exceed the possible iteration counts, so each loop runs
until its Python guard fails. -/
def findLongestMatch (a b : List Char) (bjunk : Char → Bool)
    (alo ahi blo bhi : Nat) : FlmState :=
  let dp := dpRows a b blo bhi (List.range' alo (ahi - alo)) (fun _ => 0) ⟨alo, blo, 0⟩
  let s1 := extLoop1 a b bjunk alo blo dp.2.besti dp.2
  let s2 := extLoop2 a b bjunk ahi bhi ahi s1
  let s3 := extLoop3 a b bjunk alo blo s2.besti s2
  extLoop4 a b bjunk ahi bhi ahi s3

/-- Total size of the matching blocks of `get_matching_blocks` restricted
to `a[alo:ahi]` / `b[blo:bhi]`: recursively take the longest match and
recurse on both sides.  The fuel always exceeds the recursion depth (each
recursive call strictly decreases `(ahi - alo) + (bhi - blo)`); it is
instantiated as `len a + len b + 1` at the top level. -/
def matchTotal (a b : List Char) (bjunk : Char → Bool) :
    Nat → Nat → Nat → Nat → Nat → Nat
  | 0, _, _, _, _ => 0
  | fuel + 1, alo, ahi, blo, bhi =>
    let m := findLongestMatch a b bjunk alo ahi blo bhi
    if m.bestsize = 0 then 0
    else
      matchTotal a b bjunk fuel alo m.besti blo m.bestj + m.bestsize +
        matchTotal a b bjunk fuel (m.besti + m.bestsize) ahi (m.bestj + m.bestsize) bhi

/-- `SequenceMatcher(None, a, b).ratio()`:
`2 * matches / (len(a) + len(b))`, and `1.0` when both are empty. -/
def seqSim (a b : List Char) : ℚ :=
  if a.length + b.length = 0 then 1
  else
    (2 * (matchTotal a b (fun _ => false) (a.length + b.length + 1)
      0 a.length 0 b.length) : ℚ) / (a.length + b.length)

/-! ## The three-component title similarity -/

/-- `set(t.split())`. -/
def wordSet (t : List Char) : Finset (List Char) := (splitWs t).toFinset

/-- Token Jaccard overlap sub-score of `_calculate_title_similarity`. -/
def wordOverlap (t1 t2 : List Char) : ℚ :=
  let w1 := wordSet t1
  let w2 := wordSet t2
  if w1 = ∅ ∨ w2 = ∅ then 0
  else
    let u := (w1 ∪ w2).card
    if 0 < u then ((w1 ∩ w2).card : ℚ) / u else 0

/-- `get_ngrams(text, n)`: the set of all length-`n` substrings. -/
def ngrams (t : List Char) (n : Nat) : Finset (List Char) :=
  ((List.range (t.length + 1 - n)).map (fun i => (t.drop i).take n)).toFinset

/-- Character-trigram Jaccard sub-score of `_calculate_title_similarity`. -/
def ngramSim (t1 t2 : List Char) : ℚ :=
  let n1 := ngrams t1 3
  let n2 := ngrams t2 3
  if n1 = ∅ ∨ n2 = ∅ then 0
  else
    let u := (n1 ∪ n2).card
    if 0 < u then ((n1 ∩ n2).card : ℚ) / u else 0

/-- `AHRQDeduplicator._calculate_title_similarity`:
`(seq_ratio*0.4 + word_overlap*0.3 + ngram_sim*0.3) * 100`. -/
def calcTitleSimilarity (t1 t2 : String) : ℚ :=
  let a := t1.data
  let b := t2.data
  (seqSim a b * (4 / 10) + wordOverlap a b * (3 / 10) + ngramSim a b * (3 / 10)) * 100

/-! ## `int(float(year))` -/

/-- Value of a list of decimal digits. -/
def digitsVal (ds : List Char) : Nat :=
  ds.foldl (fun n c => n * 10 + (c.toNat - '0'.toNat)) 0

/-- Result of CPython `float(s)`: a finite value, an infinity, or NaN. -/
inductive PyFloat where
  | fin (q : ℚ)
  | inf
  | nan
deriving DecidableEq

/-- Exponent part after `e`/`E`: optional sign then mandatory digits. -/
def parseExpPart (cs : List Char) : Option Int :=
  let signSplit : Int × List Char :=
    match cs with
    | '+' :: t => (1, t)
    | '-' :: t => (-1, t)
    | t => (1, t)
  let ds := signSplit.2.takeWhile Char.isDigit
  if ds ≠ [] && signSplit.2.dropWhile Char.isDigit = [] then
    some (signSplit.1 * digitsVal ds)
  else none

/-- CPython `float(s)` on decimal literals (strip, optional sign,
`inf`/`infinity`/`nan` case-insensitively, else digits with optional
fraction and exponent).  `none` models `ValueError`.  Finite values are
exact rationals: the double rounding of `float` is not modelled, which is
exact for the integer-valued year strings this module compares.  Digit
underscores (PEP 515) are not modelled. -/
def pyFloatParse (s : String) : Option PyFloat :=
  let cs := stripChars s.data
  let signSplit : Bool × List Char :=
    match cs with
    | '+' :: t => (false, t)
    | '-' :: t => (true, t)
    | t => (false, t)
  let neg := signSplit.1
  let body := signSplit.2
  if lowerStr body = "inf".data || lowerStr body = "infinity".data then some PyFloat.inf
  else if lowerStr body = "nan".data then some PyFloat.nan
  else
    let ip := body.takeWhile Char.isDigit
    let rest1 := body.dropWhile Char.isDigit
    let fracSplit : List Char × List Char :=
      match rest1 with
      | '.' :: t => (t.takeWhile Char.isDigit, t.dropWhile Char.isDigit)
      | t => ([], t)
    let fp := fracSplit.1
    let rest2 := fracSplit.2
    if ip = [] && fp = [] then none
    else
      let expOpt : Option Int :=
        match rest2 with
        | [] => some 0
        | 'e' :: t => parseExpPart t
        | 'E' :: t => parseExpPart t
        | _ => none
      match expOpt with
      | none => none
      | some e =>
        let mant : ℚ := (digitsVal (ip ++ fp) : ℚ) / ((10 : ℚ) ^ fp.length)
        let v := mant * (10 : ℚ) ^ e
        some (PyFloat.fin (if neg then -v else v))

/-- `int(float(s))`: `ValueError` for unparseable strings and NaN,
`OverflowError` for infinities, otherwise truncation toward zero. -/
def pyIntFloat (s : String) : Except PyErr Int :=
  match pyFloatParse s with
  | none => .error .valueError
  | some PyFloat.nan => .error .valueError
  | some PyFloat.inf => .error .overflowError
  | some (PyFloat.fin q) => .ok (Int.tdiv q.num q.den)

/-! ## Records, thresholds, match rows -/

/-- A candidate row of the search-results table.  Fields are the strings
read by `row.get(..., '')`; a missing column is the empty string.  (A `NaN`
cell in `doi`/`title`/`authors` behaves like the empty string in every
path modelled here; a `NaN` `journal` cell, which would raise
`AttributeError` in the source, is outside the modelled input space.) -/
structure Candidate where
  eid : String := ""
  doi : String := ""
  title : String := ""
  authors : String := ""
  year : String := ""
  journal : String := ""
deriving DecidableEq, Repr

/-- A reference-corpus row.  `pubYear` is `str(Publication_Year)` as the
source stringifies the cell.  The derived columns (`doi_normalized`,
`title_normalized`, `first_author`) are computed once at initialization in
the source by the same pure functions modelled above; the model applies
those functions where the columns are read. -/
structure RefRecord where
  title : String := ""
  doiUrl : String := ""
  authorsStd : String := ""
  pubYear : String := ""
  journalVenue : String := ""
deriving DecidableEq, Repr

/-- `config['deduplication']['match_thresholds']`. -/
structure Thresholds where
  doi : ℚ
  titleFuzzy : ℚ
  authorYear : ℚ
deriving DecidableEq, Repr

/-- The fields of a match row other than the positional `search_idx`
(the free-text `match_details` is omitted). -/
structure MatchCore where
  searchEid : String
  searchDoi : String
  searchTitle : String
  searchAuthors : String
  searchYear : String
  matchStatus : String
  matchConfidence : ℚ
  matchType : String
  referenceIdx : Option Nat
  referenceTitle : String
  referenceDoi : String
deriving DecidableEq, Repr

/-- One row of the `find_matches` output. -/
structure MatchRow where
  searchIdx : Nat
  core : MatchCore
deriving DecidableEq, Repr

/-! ## Lookups and tier scans -/

/-- `self.doi_lookup`: `dict(zip(doi_normalized, index))` — membership is
"some reference has this normalized DOI"; on duplicates the last one wins. -/
def doiLookup (refs : List (Nat × RefRecord)) (key : String) : Option Nat :=
  (refs.filterMap fun p =>
    if normalizeDoi (some p.2.doiUrl) = key then some p.1 else none).getLast?

/-- `self.title_year_lookup[(title_norm, year)][0]`: the first reference
(in corpus order) whose normalized title and stringified year match. -/
def titleYearLookup (refs : List (Nat × RefRecord)) (tn y : String) : Option Nat :=
  (refs.find? fun p =>
    normalizeTitle (some p.2.title) = tn && p.2.pubYear = y).map (·.1)

/-- `self.reference_df.loc[i]`: the reference row labelled `i`. -/
def refByIdx (refs : List (Nat × RefRecord)) (i : Nat) : Option RefRecord :=
  (refs.find? fun p => p.1 = i).map (·.2)

/-- The year filter of the fuzzy-title tier:
`if year and ref_year and abs(int(float(year)) - int(float(ref_year))) > 1:
continue / except ValueError: continue`.  Returns `true` when the
reference is skipped; an infinity year raises `OverflowError`. -/
def yearFilter (y ry : String) : Except PyErr Bool :=
  if y = "" then .ok false
  else if ry = "" then .ok false
  else
    match pyIntFloat y with
    | .error .overflowError => .error .overflowError
    | .error _ => .ok true
    | .ok a =>
      match pyIntFloat ry with
      | .error .overflowError => .error .overflowError
      | .error _ => .ok true
      | .ok b => .ok (1 < (a - b).natAbs)

/-- One iteration of the fuzzy-title scan: skip the reference when the
year filter fires, otherwise score the normalized titles and keep the
strictly best score together with its reference index. -/
def fuzzyScanStep (tn y : String) (st : ℚ × Option Nat) (p : Nat × RefRecord) :
    Except PyErr (ℚ × Option Nat) := do
  let skip ← yearFilter y p.2.pubYear
  if skip then return st
  let sim := calcTitleSimilarity tn (normalizeTitle (some p.2.title))
  if st.1 < sim then return (sim, some p.1)
  return st

/-- The fuzzy-title scan over the whole reference corpus, accumulating
`(best_score, best_match)` from `(0, None)`. -/
def fuzzyScan (tn y : String) (refs : List (Nat × RefRecord)) :
    Except PyErr (ℚ × Option Nat) :=
  refs.foldlM (fuzzyScanStep tn y) (0, none)

/-- Modelled from the claim: the same scan scoring every reference, with
no year filter at all. -/
def scanAllRefs (tn : String) (refs : List (Nat × RefRecord)) : ℚ × Option Nat :=
  refs.foldl
    (fun st p =>
      let sim := calcTitleSimilarity tn (normalizeTitle (some p.2.title))
      if st.1 < sim then (sim, some p.1) else st)
    (0, none)

/-- The author+year tier scan: first reference whose extracted first-author
surname matches case-insensitively and whose stringified year equals the
candidate's year string; confidence gets +10 when the journal also matches
case-insensitively.  (The source precomputes the reference surnames at
initialization; the surname extraction, including its possible
`IndexError`, is applied here at the point of use.) -/
def authorScan (th : Thresholds) (c : Candidate) (sfa y : String) :
    List (Nat × RefRecord) → Except PyErr (Option (Nat × RefRecord × ℚ))
  | [] => .ok none
  | p :: ps => do
    let rfa ← extractFirstAuthor (some p.2.authorsStd)
    if pyLower sfa = pyLower rfa ∧ y = p.2.pubYear then
      return some (p.1, p.2,
        th.authorYear + (if pyLower c.journal = pyLower p.2.journalVenue then 10 else 0))
    authorScan th c sfa y ps

/-! ## `find_matches` -/

/-- The `match_info` dictionary as initialized at the top of the loop
body: the echoed candidate fields with `no_match` status. -/
def baseCore (c : Candidate) : MatchCore :=
  { searchEid := c.eid, searchDoi := c.doi, searchTitle := c.title,
    searchAuthors := c.authors, searchYear := c.year,
    matchStatus := "no_match", matchConfidence := 0, matchType := "",
    referenceIdx := none, referenceTitle := "", referenceDoi := "" }

/-- DOI tier of the loop body.  `.ok (some r)` models
`results.append(match_info); continue`, `.ok none` models falling
through to the next tier. -/
def doiTier (th : Thresholds) (refs : List (Nat × RefRecord)) (c : Candidate) :
    Except PyErr (Option MatchCore) :=
  if c.doi ≠ "" then
    if normalizeDoi (some c.doi) ≠ "" then
      match doiLookup refs (normalizeDoi (some c.doi)) with
      | some refIdx =>
        match refByIdx refs refIdx with
        | some r =>
          .ok (some { baseCore c with
            matchStatus := "definite_match", matchConfidence := th.doi,
            matchType := "doi", referenceIdx := some refIdx,
            referenceTitle := r.title, referenceDoi := r.doiUrl })
        | none => .error PyErr.keyError
      | none => .ok none
    else .ok none
  else .ok none

/-- Exact title+year tier of the loop body (runs only when the
normalized candidate title is non-empty, which the caller checks). -/
def titleExactTier (refs : List (Nat × RefRecord)) (c : Candidate)
    (tn y : String) : Except PyErr (Option MatchCore) :=
  match titleYearLookup refs tn y with
  | some refIdx =>
    match refByIdx refs refIdx with
    | some r =>
      .ok (some { baseCore c with
        matchStatus := "very_likely_match", matchConfidence := 90,
        matchType := "title_year_exact", referenceIdx := some refIdx,
        referenceTitle := r.title, referenceDoi := r.doiUrl })
    | none => .error PyErr.keyError
  | none => .ok none

/-- Fuzzy-title tier of the loop body: scan for the best similarity, and
when it reaches the threshold emit a match whose status depends on the
score band.  `self.reference_df.loc[best_match]` with `best_match = None`
(threshold ≤ 0 and an empty scan) raises. -/
def titleFuzzyTier (th : Thresholds) (refs : List (Nat × RefRecord))
    (c : Candidate) (tn y : String) : Except PyErr (Option MatchCore) :=
  match fuzzyScan tn y refs with
  | .error e => .error e
  | .ok best =>
    if th.titleFuzzy ≤ best.1 then
      match best.2 with
      | some refIdx =>
        match refByIdx refs refIdx with
        | some r =>
          .ok (some { baseCore c with
            matchStatus :=
              (if 90 ≤ best.1 then "very_likely_match"
               else if 80 ≤ best.1 then "probable_match"
               else "possible_match"),
            matchConfidence := best.1,
            matchType := "title_fuzzy", referenceIdx := some refIdx,
            referenceTitle := r.title, referenceDoi := r.doiUrl })
        | none => .error PyErr.keyError
      | none => .error PyErr.keyError
    else .ok none

/-- Author+year tier of the loop body.  The surname extraction runs
before the `if search_first_author and year` guard, as in the source. -/
def authorTier (th : Thresholds) (refs : List (Nat × RefRecord))
    (c : Candidate) (y : String) : Except PyErr (Option MatchCore) :=
  match extractFirstAuthor (some c.authors) with
  | .error e => .error e
  | .ok sfa =>
    if sfa ≠ "" ∧ y ≠ "" then
      match authorScan th c sfa y refs with
      | .error e => .error e
      | .ok (some hit) =>
        .ok (some { baseCore c with
          matchStatus := "possible_match", matchConfidence := hit.2.2,
          matchType := "author_year", referenceIdx := some hit.1,
          referenceTitle := hit.2.1.title, referenceDoi := hit.2.1.doiUrl })
      | .ok none => .ok none
    else .ok none

/-- The title tiers of the loop body, guarded by `if title_norm:`:
the exact title+year lookup, then the fuzzy scan. -/
def titleTiers (th : Thresholds) (refs : List (Nat × RefRecord)) (c : Candidate) :
    Except PyErr (Option MatchCore) :=
  if normalizeTitle (some c.title) ≠ "" then
    match titleExactTier refs c (normalizeTitle (some c.title)) c.year with
    | .error e => .error e
    | .ok (some r) => .ok (some r)
    | .ok none => titleFuzzyTier th refs c (normalizeTitle (some c.title)) c.year
  else .ok none

/-- The per-candidate body of `AHRQDeduplicator.find_matches`: the strict
tier cascade.  Each `results.append(match_info); continue` of the source
is a tier returning `some`; a tier returning `none` falls through; the
final `no_match` append is the last alternative. -/
def matchOne (th : Thresholds) (refs : List (Nat × RefRecord)) (c : Candidate) :
    Except PyErr MatchCore :=
  match doiTier th refs c with
  | .error e => .error e
  | .ok (some r) => .ok r
  | .ok none =>
    match titleTiers th refs c with
    | .error e => .error e
    | .ok (some r) => .ok r
    | .ok none =>
      match authorTier th refs c c.year with
      | .error e => .error e
      | .ok (some r) => .ok r
      | .ok none => .ok (baseCore c)

/-- The loop of `find_matches` over the batch, with the positional
dataframe index as `search_idx`. -/
def findMatchesAux (th : Thresholds) (refs : List (Nat × RefRecord)) :
    Nat → List Candidate → Except PyErr (List MatchRow)
  | _, [] => .ok []
  | idx, c :: cs =>
    match matchOne th refs c with
    | .error e => .error e
    | .ok core =>
      match findMatchesAux th refs (idx + 1) cs with
      | .error e => .error e
      | .ok rest => .ok ({ searchIdx := idx, core := core } :: rest)

/-- `AHRQDeduplicator.find_matches` on a freshly loaded batch
(positional row index starting at 0). -/
def findMatches (th : Thresholds) (refs : List (Nat × RefRecord))
    (batch : List Candidate) : Except PyErr (List MatchRow) :=
  findMatchesAux th refs 0 batch

/-! ## Concrete fixtures used by counterexamples and witnesses -/

/-- A concrete threshold configuration (DOI 95, fuzzy 70, author+year 60),
matching the bands the report text documents. -/
def th0 : Thresholds := ⟨95, 70, 60⟩

/-- A candidate whose `authors` cell is non-empty whitespace: it reaches
`authors_str.split()[0]` in `_extract_first_author`. -/
def wsAuthorsCand : Candidate := { authors := "   " }

/-- A candidate whose raw `doi` is non-empty whitespace: its normalized
DOI is the empty string. -/
def wsDoiCand : Candidate := { doi := "   " }

/-- A reference record with every cell missing/empty: its normalized DOI
is the empty string. -/
def emptyRef : RefRecord := {}

/-- Candidate `A` of the batch-order experiment. -/
def candA : Candidate := { eid := "a" }

/-- Candidate `B` of the batch-order experiment. -/
def candB : Candidate := { eid := "b" }

/-- A dummy row used to index into result lists in closed statements. -/
def dummyRow : MatchRow :=
  ⟨0, "", "", "", "", "", "", 0, "", none, "", ""⟩

/-! ## Invariants for the `SequenceMatcher` proofs -/

/-- The match candidate `st` lies inside the rectangle
`[alo, ahi) × [blo, bhi)` (allowing the degenerate zero-size state). -/
def BestOk (alo ahi blo bhi : Nat) (st : FlmState) : Prop :=
  alo ≤ st.besti ∧ st.besti + st.bestsize ≤ ahi ∧
    blo ≤ st.bestj ∧ st.bestj + st.bestsize ≤ bhi

/-- A `j2len` row map: every non-zero entry `m j` is a chain length that
fits left of column `j + 1` (so `blo + m j ≤ j + 1`) and is at most `B`
(the number of rows processed so far). -/
def RowOk (blo B : Nat) (m : Nat → Nat) : Prop :=
  ∀ j, m j = 0 ∨ (blo + m j ≤ j + 1 ∧ m j ≤ B)

/-- Length of the maximal run of non-popular characters of `b` ending at
position `j` (the diagonal chain length available at `(j, j)` in a
self-comparison). -/
def runEnd (b : List Char) : Nat → Nat
  | 0 => if popularChar b (b.getD 0 ' ') then 0 else 1
  | j + 1 => if popularChar b (b.getD (j + 1) ' ') then 0 else runEnd b j + 1

/-- Invariant of the previous `j2len` row when the self-comparison
dynamic programme is about to process row `i`: entries are bounded by the
column runs and by the previous row's run, and the diagonal entry is
exact. -/
def OldRow (a : List Char) (i : Nat) (m : Nat → Nat) : Prop :=
  (∀ j, m j ≤ runEnd a j) ∧
  (i = 0 → ∀ j, m j = 0) ∧
  (0 < i → ∀ j, m j ≤ runEnd a (i - 1)) ∧
  (0 < i → m (i - 1) = runEnd a (i - 1))

/-- Invariant of the best state in the self-comparison after the rows
before `i` have been processed: the best block is diagonal and dominates
every completed diagonal run. -/
def SelfBest (a : List Char) (i : Nat) (st : FlmState) : Prop :=
  st.besti = st.bestj ∧ ∀ t, t < i → runEnd a t ≤ st.bestsize

/-! ## Counterexamples and concrete evaluations -/

/-- C1 (counterexample): a candidate whose raw `doi` field is non-empty
("   ") and whose normalized DOI (the empty string) equals the normalized
DOI of the only reference record (whose `DOI_URL` cell is empty) is NOT
classified by the DOI tier: the result is `no_match`, not
`match_type = 'doi'`, because the tier additionally requires the
normalized DOI to be non-empty. -/
theorem c1_counterexample :
    wsDoiCand.doi ≠ "" ∧
    normalizeDoi (some wsDoiCand.doi) = normalizeDoi (some emptyRef.doiUrl) ∧
    (matchOne th0 [(0, emptyRef)] wsDoiCand).map (fun r => r.matchType) ≠ .ok "doi" ∧
    (matchOne th0 [(0, emptyRef)] wsDoiCand).map (fun r => r.matchStatus) =
      .ok "no_match" := by
  with_unfolding_all decide

/-- C2 (counterexample): on a batch containing a candidate whose `authors`
cell is whitespace-only, `find_matches` raises `IndexError` and produces
no result rows at all, so it does not produce exactly one `MatchResult`
row per candidate on every batch. -/
theorem c2_counterexample :
    findMatches th0 [] [wsAuthorsCand] = .error PyErr.indexError := by
  with_unfolding_all decide

/-- C3 (evaluation at the failing input): a candidate with
`authors = "   "` (non-empty whitespace, no DOI, no title) drives
`_extract_first_author` into `authors_str.split()[0]` on an empty split
list; `find_matches` raises `IndexError` instead of degrading to
`no_match`, and the batch aborts. -/
theorem c3_crash_eval :
    matchOne th0 [] wsAuthorsCand = .error PyErr.indexError ∧
    findMatches th0 [] [candA, wsAuthorsCand, candB] = .error PyErr.indexError := by
  with_unfolding_all decide

/-- C5 (counterexample): on input "hello" no DOI-like substring is found,
yet `_normalize_doi` returns "hello" (the lower-cased stripped input), not
the empty string. -/
theorem c5_counterexample :
    normalizeDoi (some "hello") = "hello" ∧ ("hello" : String) ≠ "" := by
  decide

/-- C6 (counterexample): the title similarity score is not symmetric:
`score("aba", "babba") = 30` but `score("babba", "aba") = 20` (the
`SequenceMatcher` character component is order-dependent). -/
theorem c6_counterexample :
    calcTitleSimilarity "aba" "babba" = 30 ∧
    calcTitleSimilarity "babba" "aba" = 20 ∧
    calcTitleSimilarity "aba" "babba" ≠ calcTitleSimilarity "babba" "aba" := by
  with_unfolding_all decide

/-- C7 (counterexample): for the non-empty normalized title "x" the
self-similarity is 70, not 100: a string shorter than 3 characters has an
empty trigram set, so the trigram component is 0. -/
theorem c7_counterexample :
    calcTitleSimilarity "x" "x" = 70 ∧ (70 : ℚ) ≠ 100 := by
  with_unfolding_all decide

/-- C8 (counterexample): on the whitespace-only author string "   " the
source function raises `IndexError` instead of returning the surname
described by the spec. -/
theorem c8_counterexample :
    extractFirstAuthor (some "   ") ≠
      .ok (claimFirstAuthorSurname (some "   ")) ∧
    extractFirstAuthor (some "   ") = .error PyErr.indexError := by
  with_unfolding_all decide

/-- C9 (counterexample): the `MatchResult` row produced for candidate `A`
is not the same in the batches `[A, B]` and `[B, A]`: the echoed
`search_idx` field is the candidate's position in the batch (0 vs 1). -/
theorem c9_counterexample :
    (findMatches th0 [] [candA, candB]).map (fun rs => rs.getD 0 dummyRow) ≠
      (findMatches th0 [] [candB, candA]).map (fun rs => rs.getD 1 dummyRow) ∧
    (findMatches th0 [] [candA, candB]).map (fun rs => (rs.getD 0 dummyRow).core) =
      (findMatches th0 [] [candB, candA]).map (fun rs => (rs.getD 1 dummyRow).core) := by
  with_unfolding_all decide

/-! ## C5: `_normalize_doi` on pattern-free input -/

/-- If the leftmost search fails, the DOI pattern matches at no suffix. -/
theorem searchDoi_suffix_none {s t : List Char} (h : searchDoi s = none)
    (ht : t <:+ s) : doiMatchAt t = none := by
  induction s with
  | nil =>
    rw [List.suffix_nil.mp ht]
    rfl
  | cons c cs ih =>
    unfold searchDoi at h
    rcases hm : doiMatchAt (c :: cs) with _ | m
    · rw [hm] at h
      rcases List.suffix_cons_iff.mp ht with rfl | ht'
      · exact hm
      · exact ih h ht'
    · rw [hm] at h
      exact absurd h (by simp)

/-- Pattern 2 (`doi.org/…`) cannot match when pattern 1 finds nothing:
its capture group is itself a pattern-1 match at a suffix. -/
theorem searchDoiOrg_eq_none {s : List Char} (h : searchDoi s = none) :
    searchDoiOrg s = none := by
  induction s with
  | nil => rfl
  | cons c cs ih =>
    have h' : searchDoi cs = none := by
      unfold searchDoi at h
      rcases hm : doiMatchAt (c :: cs) with _ | m
      · rwa [hm] at h
      · rw [hm] at h; exact absurd h (by simp)
    have horg : doiOrgAt (c :: cs) = none := by
      unfold doiOrgAt
      split
      · exact searchDoi_suffix_none h (List.drop_suffix _ _)
      · rfl
    unfold searchDoiOrg
    rw [horg, ih h']

/-- Pattern 3 (`dx.doi.org/…`) cannot match when pattern 1 finds nothing. -/
theorem searchDxDoiOrg_eq_none {s : List Char} (h : searchDoi s = none) :
    searchDxDoiOrg s = none := by
  induction s with
  | nil => rfl
  | cons c cs ih =>
    have h' : searchDoi cs = none := by
      unfold searchDoi at h
      rcases hm : doiMatchAt (c :: cs) with _ | m
      · rwa [hm] at h
      · rw [hm] at h; exact absurd h (by simp)
    have hdx : dxDoiOrgAt (c :: cs) = none := by
      unfold dxDoiOrgAt
      split
      · exact searchDoi_suffix_none h (List.drop_suffix _ _)
      · rfl
    unfold searchDxDoiOrg
    rw [hdx, ih h']

/-- C5 (amended): when no DOI-like substring is found in the lower-cased
stripped input, `_normalize_doi` returns that lower-cased stripped input
itself (not the empty string); a missing input yields the empty string. -/
theorem c5_no_pattern_returns_input (s : String)
    (h : searchDoi (stripChars (lowerStr s.data)) = none) :
    normalizeDoi (some s) = ⟨stripChars (lowerStr s.data)⟩ ∧
    normalizeDoi none = "" := by
  refine ⟨?_, rfl⟩
  unfold normalizeDoi
  simp only [h, searchDoiOrg_eq_none h, searchDxDoiOrg_eq_none h]

/-- C5 witness: concrete pattern-free input "Hello World". -/
theorem c5_witness :
    searchDoi (stripChars (lowerStr "Hello World".data)) = none ∧
    (normalizeDoi (some "Hello World") = ⟨stripChars (lowerStr "Hello World".data)⟩ ∧
      normalizeDoi none = "") :=
  ⟨by decide, c5_no_pattern_returns_input "Hello World" (by decide)⟩

/-! ## C8: `_extract_first_author` against the spec's description -/

/-- `split()` of a whitespace-only tail only flushes the accumulator. -/
theorem splitWsAux_wsOnly {t : List Char} (h : ∀ c ∈ t, pyIsSpace c) (acc : List Char) :
    splitWsAux t acc = if acc = [] then [] else [acc.reverse] := by
  induction t generalizing acc with
  | nil => rfl
  | cons c cs ih =>
    have hc : pyIsSpace c = true := h c (by simp)
    have ht : ∀ x ∈ cs, pyIsSpace x := fun x hx => h x (by simp [hx])
    by_cases hacc : acc = [] <;> simp [splitWsAux, hc, hacc, ih ht]

/-- Appending whitespace does not change `split()`. -/
theorem splitWsAux_append_wsOnly {t : List Char} (h : ∀ c ∈ t, pyIsSpace c) :
    ∀ (x acc : List Char), splitWsAux (x ++ t) acc = splitWsAux x acc
  | [], acc => by
    rw [List.nil_append, splitWsAux_wsOnly h acc]
    rfl
  | c :: cs, acc => by
    by_cases hc : pyIsSpace c <;> by_cases hacc : acc = [] <;>
      simp [splitWsAux, hc, hacc, splitWsAux_append_wsOnly h cs]

/-- Leading whitespace does not change `split()`. -/
theorem splitWs_dropWhile (l : List Char) :
    splitWs (l.dropWhile pyIsSpace) = splitWs l := by
  induction l with
  | nil => rfl
  | cons c cs ih =>
    by_cases hc : pyIsSpace c
    · rw [List.dropWhile_cons_of_pos hc]
      rw [ih]
      simp [splitWs, splitWsAux, hc]
    · rw [List.dropWhile_cons_of_neg hc]

/-- `split()` is invariant under `strip()`. -/
theorem splitWs_stripChars (l : List Char) : splitWs (stripChars l) = splitWs l := by
  unfold stripChars
  have hsplit :
      ((l.dropWhile pyIsSpace).reverse.dropWhile pyIsSpace).reverse ++
        ((l.dropWhile pyIsSpace).reverse.takeWhile pyIsSpace).reverse =
        l.dropWhile pyIsSpace := by
    rw [← List.reverse_append, List.takeWhile_append_dropWhile, List.reverse_reverse]
  have hws : ∀ c ∈ ((l.dropWhile pyIsSpace).reverse.takeWhile pyIsSpace).reverse,
      pyIsSpace c := by
    intro c hc
    exact List.mem_takeWhile_imp (List.mem_reverse.mp hc)
  calc splitWs ((l.dropWhile pyIsSpace).reverse.dropWhile pyIsSpace).reverse
      = splitWsAux (((l.dropWhile pyIsSpace).reverse.dropWhile pyIsSpace).reverse ++
          ((l.dropWhile pyIsSpace).reverse.takeWhile pyIsSpace).reverse) [] :=
        (splitWsAux_append_wsOnly hws _ _).symm
    _ = splitWs (l.dropWhile pyIsSpace) := by rw [hsplit]; rfl
    _ = splitWs l := splitWs_dropWhile l

/-- The tail of both functions agrees on every first segment `fa`:
`parts[-1] if parts else ''` after stripping equals the last
whitespace-delimited token of the raw segment. -/
theorem lastToken_eq (fa : List Char) :
    (if fa ≠ [] then
      (match (splitWs (stripChars fa)).getLast? with
        | some p => Except.ok (⟨p⟩ : String)
        | none => Except.ok "")
     else (Except.ok "" : Except PyErr String)) =
      Except.ok ⟨((splitWs fa).getLast?).getD []⟩ := by
  rw [show splitWs (stripChars fa) = splitWs fa from splitWs_stripChars fa]
  by_cases hfa : fa = []
  · rw [hfa]; rfl
  · rw [if_pos hfa]
    cases h : (splitWs fa).getLast?
    · rfl
    · rfl

/-- C8 (amended): whenever `_extract_first_author` does not raise its
`IndexError` (i.e. except on non-empty whitespace-only inputs without `;`
and with at most one `,`), it returns exactly the surname described by
the spec: split on `;` if present, else on `,` when there is more than
one comma, else on whitespace; take the first segment; return its last
whitespace-delimited token; missing input yields the empty string. -/
theorem c8_extract_matches_spec (a : Option String)
    (h : extractFirstAuthor a ≠ .error PyErr.indexError) :
    extractFirstAuthor a = .ok (claimFirstAuthorSurname a) := by
  rcases a with _ | s
  · rfl
  · simp only [extractFirstAuthor, claimFirstAuthorSurname]
    by_cases h1 : s.data.contains ';' = true
    · rw [if_pos h1, if_pos h1]
      exact lastToken_eq ((splitSep ';' s.data).headD [])
    · rw [if_neg h1, if_neg h1]
      by_cases h2 : (s.data.contains ',' && decide (1 < List.count ',' s.data)) = true
      · rw [if_pos h2, if_pos h2]
        exact lastToken_eq ((splitSep ',' s.data).headD [])
      · rw [if_neg h2, if_neg h2]
        by_cases h3 : s.data = []
        · rw [if_pos h3, h3]
          rfl
        · rw [if_neg h3]
          rcases hsp : splitWs s.data with _ | ⟨w, rest⟩
          · exfalso
            apply h
            simp only [extractFirstAuthor]
            rw [if_neg h1, if_neg h2, if_neg h3, hsp]
          · exact lastToken_eq w

/-- C8 witness: a concrete multi-author string. -/
theorem c8_witness :
    extractFirstAuthor (some "Smith, John A.; Doe, Jane") ≠ .error PyErr.indexError ∧
    extractFirstAuthor (some "Smith, John A.; Doe, Jane") =
      .ok (claimFirstAuthorSurname (some "Smith, John A.; Doe, Jane")) :=
  ⟨by decide, c8_extract_matches_spec (some "Smith, John A.; Doe, Jane") (by decide)⟩

/-! ## Tier output shapes -/

/-- A DOI-tier hit always carries `match_type = 'doi'` and
`match_status = 'definite_match'`. -/
theorem doiTier_some_shape {th : Thresholds} {refs : List (Nat × RefRecord)}
    {c : Candidate} {r : MatchCore} (h : doiTier th refs c = .ok (some r)) :
    r.matchType = "doi" ∧ r.matchStatus = "definite_match" := by
  unfold doiTier at h
  repeat' split at h
  all_goals simp_all
  all_goals (subst h; exact ⟨rfl, rfl⟩)

/-- An exact title+year hit always carries
`match_type = 'title_year_exact'`. -/
theorem titleExactTier_some_shape {refs : List (Nat × RefRecord)}
    {c : Candidate} {tn y : String} {r : MatchCore}
    (h : titleExactTier refs c tn y = .ok (some r)) :
    r.matchType = "title_year_exact" := by
  unfold titleExactTier at h
  repeat' split at h
  all_goals simp_all
  subst h; rfl

/-- A fuzzy-title hit always carries `match_type = 'title_fuzzy'`. -/
theorem titleFuzzyTier_some_shape {th : Thresholds} {refs : List (Nat × RefRecord)}
    {c : Candidate} {tn y : String} {r : MatchCore}
    (h : titleFuzzyTier th refs c tn y = .ok (some r)) :
    r.matchType = "title_fuzzy" := by
  unfold titleFuzzyTier at h
  repeat' split at h
  all_goals simp_all
  all_goals (subst h; rfl)

/-- An author+year hit always carries `match_type = 'author_year'`. -/
theorem authorTier_some_shape {th : Thresholds} {refs : List (Nat × RefRecord)}
    {c : Candidate} {y : String} {r : MatchCore}
    (h : authorTier th refs c y = .ok (some r)) :
    r.matchType = "author_year" := by
  unfold authorTier at h
  repeat' split at h
  all_goals simp_all
  subst h; rfl

/-! ## C4: the fuzzy tier's year gap filter -/

/-- When both years are non-empty and parse to integers more than 1
apart, the year filter of the fuzzy tier fires. -/
theorem yearFilter_skip {y ry : String} {a b : Int}
    (hy : y ≠ "") (hry : ry ≠ "")
    (hpa : pyIntFloat y = .ok a) (hpb : pyIntFloat ry = .ok b)
    (hgap : 1 < (a - b).natAbs) :
    yearFilter y ry = .ok true := by
  unfold yearFilter
  rw [if_neg hy, if_neg hry, hpa, hpb]
  simp [hgap]

/-- A skipped reference leaves the running `(best_score, best_match)`
untouched: its title similarity is never computed. -/
theorem fuzzyScanStep_skip {tn y : String} {st : ℚ × Option Nat}
    (p : Nat × RefRecord) (h : yearFilter y p.2.pubYear = .ok true) :
    fuzzyScanStep tn y st p = .ok st := by
  unfold fuzzyScanStep
  rw [h]
  rfl

/-- Scanning a single skipped reference yields the initial
`(0, None)` state. -/
theorem fuzzyScan_single_skip {tn y : String} {i : Nat} {ref : RefRecord}
    (h : yearFilter y ref.pubYear = .ok true) :
    fuzzyScan tn y [(i, ref)] = .ok (0, none) := by
  unfold fuzzyScan
  rw [List.foldlM]
  rw [fuzzyScanStep_skip (i, ref) h]
  rfl

/-- With a positive fuzzy threshold, the fuzzy tier falls through when
its scan skipped the only reference. -/
theorem titleFuzzyTier_single_skip {th : Thresholds} {c : Candidate}
    {tn y : String} {i : Nat} {ref : RefRecord}
    (h : yearFilter y ref.pubYear = .ok true) (hth : 0 < th.titleFuzzy) :
    titleFuzzyTier th [(i, ref)] c tn y = .ok none := by
  unfold titleFuzzyTier
  rw [fuzzyScan_single_skip h]
  simp only
  rw [if_neg (by simpa using not_le.mpr hth)]

/-- C4: a reference whose year and the candidate's year are both
parseable as integers and differ by more than 1 is skipped entirely by
the fuzzy tier (its title similarity never enters the running maximum);
consequently a candidate facing a single-reference corpus with such a
year gap — even with an identical normalized title — never receives a
`title_fuzzy` match. -/
theorem c4_year_gap_skips (y ry : String) (a b : Int)
    (hy : y ≠ "") (hry : ry ≠ "")
    (hpa : pyIntFloat y = .ok a) (hpb : pyIntFloat ry = .ok b)
    (hgap : 1 < (a - b).natAbs) :
    (∀ (tn : String) (st : ℚ × Option Nat) (i : Nat) (ref : RefRecord),
        ref.pubYear = ry → fuzzyScanStep tn y st (i, ref) = .ok st) ∧
    (∀ (th : Thresholds) (c : Candidate) (i : Nat) (ref : RefRecord),
        c.year = y → ref.pubYear = ry → 0 < th.titleFuzzy →
        normalizeTitle (some c.title) = normalizeTitle (some ref.title) →
        ∀ r, matchOne th [(i, ref)] c = .ok r → r.matchType ≠ "title_fuzzy") := by
  have hyf : yearFilter y ry = .ok true :=
    yearFilter_skip hy hry hpa hpb hgap
  constructor
  · intro tn st i ref hr
    exact fuzzyScanStep_skip (i, ref) (by show yearFilter y ref.pubYear = .ok true; rw [hr]; exact hyf)
  · intro th c i ref hcy hrefy hth _ r hr
    have hyf' : yearFilter c.year ref.pubYear = .ok true := by
      rw [hcy, hrefy]; exact hyf
    unfold matchOne at hr
    rcases hdoi : doiTier th [(i, ref)] c with e | o
    · rw [hdoi] at hr
      exact absurd hr (by simp)
    · rcases o with _ | r0
      · rw [hdoi] at hr
        simp only at hr
        rcases htt : titleTiers th [(i, ref)] c with e | o2
        · rw [htt] at hr
          exact absurd hr (by simp)
        · rcases o2 with _ | r1
          · rw [htt] at hr
            simp only at hr
            rcases hat : authorTier th [(i, ref)] c c.year with e | o3
            · rw [hat] at hr
              exact absurd hr (by simp)
            · rcases o3 with _ | r2
              · rw [hat] at hr
                simp only at hr
                cases hr
                intro hcontra
                simp [baseCore] at hcontra
              · rw [hat] at hr
                simp only at hr
                cases hr
                rw [authorTier_some_shape hat]
                decide
          · rw [htt] at hr
            simp only at hr
            cases hr
            -- the title tiers cannot have produced a fuzzy hit here
            unfold titleTiers at htt
            split at htt
            · rcases hex : titleExactTier [(i, ref)] c
                  (normalizeTitle (some c.title)) c.year with e | oe
              · rw [hex] at htt
                exact absurd htt (by simp)
              · rcases oe with _ | re
                · rw [hex] at htt
                  simp only at htt
                  rw [titleFuzzyTier_single_skip hyf' hth] at htt
                  exact absurd htt (by simp)
                · rw [hex] at htt
                  simp only at htt
                  cases htt
                  rw [titleExactTier_some_shape hex]
                  decide
            · exact absurd htt (by simp)
      · rw [hdoi] at hr
        simp only at hr
        cases hr
        rw [(doiTier_some_shape hdoi).1]
        decide

/-- C4 witness: candidate year 2021, the only reference year 2025, an
identical title, thresholds `th0`. -/
theorem c4_witness :
    (("2021" : String) ≠ "" ∧ ("2025" : String) ≠ "" ∧
      pyIntFloat "2021" = .ok 2021 ∧ pyIntFloat "2025" = .ok 2025 ∧
      1 < ((2021 : Int) - 2025).natAbs) ∧
    fuzzyScanStep "zz" "2021" (0, none)
      (0, { title := "zz", pubYear := "2025" }) = .ok (0, none) ∧
    ∀ r, matchOne th0 [(0, { title := "zz", pubYear := "2025" })]
        { title := "zz", year := "2021" } = .ok r → r.matchType ≠ "title_fuzzy" := by
  have h := c4_year_gap_skips "2021" "2025" 2021 2025 (by decide) (by decide)
    (by with_unfolding_all decide) (by with_unfolding_all decide) (by decide)
  refine ⟨⟨by decide, by decide, by with_unfolding_all decide,
    by with_unfolding_all decide, by decide⟩, ?_, ?_⟩
  · exact h.1 "zz" (0, none) 0 { title := "zz", pubYear := "2025" } rfl
  · exact h.2 th0 { title := "zz", year := "2021" } 0
      { title := "zz", pubYear := "2025" } rfl rfl (by decide) rfl

/-! ## C10: candidates with an empty year -/

/-- A title-tier hit is either the exact or the fuzzy kind. -/
theorem titleTiers_some_shape {th : Thresholds} {refs : List (Nat × RefRecord)}
    {c : Candidate} {r : MatchCore} (h : titleTiers th refs c = .ok (some r)) :
    r.matchType = "title_year_exact" ∨ r.matchType = "title_fuzzy" := by
  unfold titleTiers at h
  split at h
  · rcases hex : titleExactTier refs c (normalizeTitle (some c.title)) c.year
        with e | oe
    · rw [hex] at h
      exact absurd h (by simp)
    · rcases oe with _ | re
      · rw [hex] at h
        simp only at h
        exact Or.inr (titleFuzzyTier_some_shape h)
      · rw [hex] at h
        simp only at h
        cases h
        exact Or.inl (titleExactTier_some_shape hex)
  · exact absurd h (by simp)

/-- With an empty candidate year the author+year tier never produces a
hit (it is skipped by the `if search_first_author and year` guard). -/
theorem authorTier_empty_year {th : Thresholds} {refs : List (Nat × RefRecord)}
    {c : Candidate} {r : MatchCore} :
    authorTier th refs c "" ≠ .ok (some r) := by
  unfold authorTier
  rcases hx : extractFirstAuthor (some c.authors) with e | sfa
  · simp
  · have hg : ¬(sfa ≠ "" ∧ ("" : String) ≠ "") := by simp
    simp only [if_neg hg]
    simp

/-- One fuzzy-scan step with an empty candidate year never skips: it is
exactly the unfiltered scoring step. -/
theorem fuzzyScanStep_empty_year (tn : String) (st : ℚ × Option Nat)
    (p : Nat × RefRecord) :
    fuzzyScanStep tn "" st p = .ok
      (if st.1 < calcTitleSimilarity tn (normalizeTitle (some p.2.title))
        then (calcTitleSimilarity tn (normalizeTitle (some p.2.title)), some p.1)
        else st) := by
  unfold fuzzyScanStep
  have h : yearFilter "" p.2.pubYear = .ok false := rfl
  rw [h]
  simp only
  split <;> rfl

/-- The fuzzy scan with an empty candidate year applies no year filter:
it equals the scan that scores every reference. -/
theorem fuzzyScan_empty_year_aux (tn : String) :
    ∀ (refs : List (Nat × RefRecord)) (st : ℚ × Option Nat),
      List.foldlM (fuzzyScanStep tn "") st refs = .ok
        (refs.foldl
          (fun st p =>
            let sim := calcTitleSimilarity tn (normalizeTitle (some p.2.title))
            if st.1 < sim then (sim, some p.1) else st)
          st)
  | [], st => rfl
  | p :: ps, st => by
    rw [List.foldlM, fuzzyScanStep_empty_year tn st p]
    rw [List.foldl]
    simp only [Except.bind]
    exact fuzzyScan_empty_year_aux tn ps _

/-- C10: with an empty candidate year the fuzzy tier scores every
reference (no year filter at all), and the candidate can never receive
an `author_year` match. -/
theorem c10_empty_year :
    (∀ (tn : String) (refs : List (Nat × RefRecord)),
        fuzzyScan tn "" refs = .ok (scanAllRefs tn refs)) ∧
    (∀ (th : Thresholds) (refs : List (Nat × RefRecord)) (c : Candidate),
        c.year = "" →
        ∀ r, matchOne th refs c = .ok r → r.matchType ≠ "author_year") := by
  constructor
  · intro tn refs
    exact fuzzyScan_empty_year_aux tn refs (0, none)
  · intro th refs c hcy r hr
    unfold matchOne at hr
    rcases hdoi : doiTier th refs c with e | o
    · rw [hdoi] at hr
      exact absurd hr (by simp)
    · rcases o with _ | r0
      · rw [hdoi] at hr
        simp only at hr
        rcases htt : titleTiers th refs c with e | o2
        · rw [htt] at hr
          exact absurd hr (by simp)
        · rcases o2 with _ | r1
          · rw [htt] at hr
            simp only at hr
            rcases hat : authorTier th refs c c.year with e | o3
            · rw [hat] at hr
              exact absurd hr (by simp)
            · rcases o3 with _ | r2
              · rw [hat] at hr
                simp only at hr
                cases hr
                intro hcontra
                simp [baseCore] at hcontra
              · rw [hcy] at hat
                exact absurd hat authorTier_empty_year
          · rw [htt] at hr
            simp only at hr
            cases hr
            rcases titleTiers_some_shape htt with h1 | h1 <;> rw [h1] <;> decide
      · rw [hdoi] at hr
        simp only at hr
        cases hr
        rw [(doiTier_some_shape hdoi).1]
        decide

/-- C10 witness: a candidate with an empty year against a one-reference
corpus whose year would otherwise be far away. -/
theorem c10_witness :
    fuzzyScan "ab" "" [(0, { title := "ab", pubYear := "1999" })] =
      .ok (scanAllRefs "ab" [(0, { title := "ab", pubYear := "1999" })]) ∧
    (({ title := "ab", year := "" } : Candidate).year = "" ∧
      ∀ r, matchOne th0 [(0, { title := "ab", pubYear := "1999" })]
          { title := "ab", year := "" } = .ok r → r.matchType ≠ "author_year") :=
  ⟨(c10_empty_year).1 "ab" [(0, { title := "ab", pubYear := "1999" })],
    ⟨rfl, fun r hr => (c10_empty_year).2 th0 [(0, { title := "ab", pubYear := "1999" })]
      { title := "ab", year := "" } rfl r hr⟩⟩

/-! ## C2, C9: shape of the batch loop -/

/-- On a successful run, `find_matches` emits exactly one row per
candidate, in input order, with consecutive `search_idx` values, and each
row's match fields are those computed for that candidate alone. -/
theorem findMatchesAux_spec (th : Thresholds) (refs : List (Nat × RefRecord)) :
    ∀ (batch : List Candidate) (idx : Nat) (rs : List MatchRow),
      findMatchesAux th refs idx batch = .ok rs →
      rs.length = batch.length ∧
      ∀ i (hi : i < rs.length) (hb : i < batch.length),
        (rs.get ⟨i, hi⟩).searchIdx = idx + i ∧
        matchOne th refs (batch.get ⟨i, hb⟩) = .ok (rs.get ⟨i, hi⟩).core
  | [], idx, rs => by
    intro h
    cases h
    exact ⟨rfl, fun i hi => absurd hi (by simp)⟩
  | c :: cs, idx, rs => by
    intro h
    unfold findMatchesAux at h
    rcases hm : matchOne th refs c with e | core
    · rw [hm] at h
      exact absurd h (by simp)
    · rw [hm] at h
      simp only at h
      rcases hrest : findMatchesAux th refs (idx + 1) cs with e | rest
      · rw [hrest] at h
        exact absurd h (by simp)
      · rw [hrest] at h
        simp only at h
        cases h
        obtain ⟨hlen, hspec⟩ := findMatchesAux_spec th refs cs (idx + 1) rest hrest
        refine ⟨by simp [hlen], ?_⟩
        intro i hi hb
        cases i with
        | zero => exact ⟨by simp, by simpa using hm⟩
        | succ n =>
          have hn : n < rest.length := by simpa using hi
          have hbn : n < cs.length := by simpa using hb
          obtain ⟨h1, h2⟩ := hspec n hn hbn
          refine ⟨?_, by simpa using h2⟩
          simpa [Nat.add_comm, Nat.add_assoc, Nat.add_left_comm] using h1

/-- C2 (amended): whenever `find_matches` completes without raising, it
produces exactly one `MatchResult` row per candidate, in input order: the
result list has the batch's length, row `i` has `search_idx = i`, and its
match fields are `matchOne` of candidate `i`. -/
theorem c2_one_row_per_candidate (th : Thresholds) (refs : List (Nat × RefRecord))
    (batch : List Candidate) (rs : List MatchRow)
    (h : findMatches th refs batch = .ok rs) :
    rs.length = batch.length ∧
    ∀ i (hi : i < rs.length) (hb : i < batch.length),
      (rs.get ⟨i, hi⟩).searchIdx = i ∧
      matchOne th refs (batch.get ⟨i, hb⟩) = .ok (rs.get ⟨i, hi⟩).core := by
  have hs := findMatchesAux_spec th refs batch 0 rs h
  refine ⟨hs.1, fun i hi hb => ?_⟩
  obtain ⟨h1, h2⟩ := hs.2 i hi hb
  exact ⟨by simpa using h1, h2⟩

/-- C2 witness: a two-candidate batch that completes. -/
theorem c2_witness :
    findMatches th0 [] [candA, candB] =
      .ok [⟨0, baseCore candA⟩, ⟨1, baseCore candB⟩] ∧
    (([⟨0, baseCore candA⟩, ⟨1, baseCore candB⟩] : List MatchRow).length =
        ([candA, candB] : List Candidate).length ∧
      ∀ i (hi : i < ([⟨0, baseCore candA⟩, ⟨1, baseCore candB⟩] : List MatchRow).length)
        (hb : i < ([candA, candB] : List Candidate).length),
        (([⟨0, baseCore candA⟩, ⟨1, baseCore candB⟩] : List MatchRow).get ⟨i, hi⟩).searchIdx = i ∧
        matchOne th0 [] (([candA, candB] : List Candidate).get ⟨i, hb⟩) =
          .ok (([⟨0, baseCore candA⟩, ⟨1, baseCore candB⟩] : List MatchRow).get ⟨i, hi⟩).core) :=
  ⟨by with_unfolding_all decide,
    c2_one_row_per_candidate th0 [] [candA, candB]
      [⟨0, baseCore candA⟩, ⟨1, baseCore candB⟩] (by with_unfolding_all decide)⟩

/-- C9 (amended): the rows produced for `A` and for `B` agree between the
batches `[A, B]` and `[B, A]` in every field except the positional
`search_idx`: each candidate's match fields are the pure `matchOne` of
that candidate, independent of the batch. -/
theorem c9_order_independent (th : Thresholds) (refs : List (Nat × RefRecord))
    (A B : Candidate) (rsAB rsBA : List MatchRow)
    (hAB : findMatches th refs [A, B] = .ok rsAB)
    (hBA : findMatches th refs [B, A] = .ok rsBA) :
    ∃ ca cb, rsAB = [⟨0, ca⟩, ⟨1, cb⟩] ∧ rsBA = [⟨0, cb⟩, ⟨1, ca⟩] ∧
      matchOne th refs A = .ok ca ∧ matchOne th refs B = .ok cb := by
  rcases hA : matchOne th refs A with e | ca
  · exfalso
    simp [findMatches, findMatchesAux, hA] at hAB
  · rcases hB : matchOne th refs B with e | cb
    · exfalso
      simp [findMatches, findMatchesAux, hA, hB] at hAB
    · have eAB : findMatches th refs [A, B] = .ok [⟨0, ca⟩, ⟨1, cb⟩] := by
        simp [findMatches, findMatchesAux, hA, hB]
      have eBA : findMatches th refs [B, A] = .ok [⟨0, cb⟩, ⟨1, ca⟩] := by
        simp [findMatches, findMatchesAux, hA, hB]
      rw [eAB] at hAB
      rw [eBA] at hBA
      cases hAB
      cases hBA
      exact ⟨ca, cb, rfl, rfl, rfl, rfl⟩


/-- C9 witness: the two concrete candidates of the order experiment. -/
theorem c9_witness :
    (findMatches th0 [] [candA, candB] =
        .ok [⟨0, baseCore candA⟩, ⟨1, baseCore candB⟩] ∧
      findMatches th0 [] [candB, candA] =
        .ok [⟨0, baseCore candB⟩, ⟨1, baseCore candA⟩]) ∧
    ∃ ca cb,
      ([⟨0, baseCore candA⟩, ⟨1, baseCore candB⟩] : List MatchRow) = [⟨0, ca⟩, ⟨1, cb⟩] ∧
      ([⟨0, baseCore candB⟩, ⟨1, baseCore candA⟩] : List MatchRow) = [⟨0, cb⟩, ⟨1, ca⟩] ∧
      matchOne th0 [] candA = .ok ca ∧ matchOne th0 [] candB = .ok cb :=
  ⟨⟨by with_unfolding_all decide, by with_unfolding_all decide⟩,
    c9_order_independent th0 [] candA candB
      [⟨0, baseCore candA⟩, ⟨1, baseCore candB⟩]
      [⟨0, baseCore candB⟩, ⟨1, baseCore candA⟩]
      (by with_unfolding_all decide) (by with_unfolding_all decide)⟩

/-! ## C1: the DOI tier short-circuits -/

/-- C1 (amended): a candidate with a non-empty `doi` field whose
normalized DOI is non-empty and equals the normalized DOI of some
reference gets `definite_match` / `doi` — regardless of its title,
because the DOI tier decides before any title comparison. -/
theorem c1_doi_tier (th : Thresholds) (refs : List (Nat × RefRecord))
    (c : Candidate) (h1 : c.doi ≠ "") (h2 : normalizeDoi (some c.doi) ≠ "")
    (h3 : ∃ p ∈ refs, normalizeDoi (some p.2.doiUrl) = normalizeDoi (some c.doi)) :
    ∃ r, matchOne th refs c = .ok r ∧
      r.matchStatus = "definite_match" ∧ r.matchType = "doi" := by
  obtain ⟨p, hp, hpe⟩ := h3
  have hmem : p.1 ∈ refs.filterMap
      (fun q => if normalizeDoi (some q.2.doiUrl) = normalizeDoi (some c.doi)
        then some q.1 else none) :=
    List.mem_filterMap.mpr ⟨p, hp, by rw [if_pos hpe]⟩
  obtain ⟨i, hi⟩ : ∃ i, doiLookup refs (normalizeDoi (some c.doi)) = some i := by
    rcases hgl : doiLookup refs (normalizeDoi (some c.doi)) with _ | i
    · exfalso
      unfold doiLookup at hgl
      rw [List.getLast?_eq_none_iff] at hgl
      rw [hgl] at hmem
      exact absurd hmem (by simp)
    · exact ⟨i, rfl⟩
  have himem : i ∈ refs.filterMap
      (fun q => if normalizeDoi (some q.2.doiUrl) = normalizeDoi (some c.doi)
        then some q.1 else none) := by
    unfold doiLookup at hi
    exact List.mem_of_mem_getLast? hi
  obtain ⟨q, hq, hqi⟩ := List.mem_filterMap.mp himem
  have hqi' : q.1 = i := by
    by_cases hc : normalizeDoi (some q.2.doiUrl) = normalizeDoi (some c.doi)
    · rw [if_pos hc] at hqi
      exact Option.some.inj hqi
    · rw [if_neg hc] at hqi
      exact absurd hqi (by simp)
  obtain ⟨r0, hr0⟩ : ∃ r0, refByIdx refs i = some r0 := by
    rcases hf : refs.find? (fun pr => pr.1 = i) with _ | q0
    · exfalso
      have := List.find?_eq_none.mp hf q hq
      simp [hqi'] at this
    · exact ⟨q0.2, by unfold refByIdx; rw [hf]; rfl⟩
  have hd : doiTier th refs c = .ok (some { baseCore c with
      matchStatus := "definite_match", matchConfidence := th.doi,
      matchType := "doi", referenceIdx := some i,
      referenceTitle := r0.title, referenceDoi := r0.doiUrl }) := by
    simp [doiTier, h1, h2, hi, hr0]
  refine ⟨{ baseCore c with
      matchStatus := "definite_match", matchConfidence := th.doi,
      matchType := "doi", referenceIdx := some i,
      referenceTitle := r0.title, referenceDoi := r0.doiUrl }, ?_, rfl, rfl⟩
  unfold matchOne
  rw [hd]

/-- C1 witness: a concrete candidate whose DOI (in `dx.doi.org` URL form)
matches the reference's normalized DOI even though the titles are
completely different. -/
theorem c1_witness :
    (("dx.doi.org/10.1377/x" : String) ≠ "" ∧
      normalizeDoi (some "dx.doi.org/10.1377/x") ≠ "" ∧
      normalizeDoi (some "https://doi.org/10.1377/x") =
        normalizeDoi (some "dx.doi.org/10.1377/x")) ∧
    ∃ r, matchOne th0
        [(0, { title := "Consolidation and Mergers", doiUrl := "https://doi.org/10.1377/x" })]
        { doi := "dx.doi.org/10.1377/x", title := "Wildly different title" } = .ok r ∧
      r.matchStatus = "definite_match" ∧ r.matchType = "doi" :=
  ⟨⟨by decide, by with_unfolding_all decide, by with_unfolding_all decide⟩,
    c1_doi_tier th0
      [(0, { title := "Consolidation and Mergers", doiUrl := "https://doi.org/10.1377/x" })]
      { doi := "dx.doi.org/10.1377/x", title := "Wildly different title" }
      (by decide) (by with_unfolding_all decide)
      ⟨(0, { title := "Consolidation and Mergers", doiUrl := "https://doi.org/10.1377/x" }),
        by simp, by with_unfolding_all decide⟩⟩

/-! ## C6: boundedness of the similarity score

The interesting part is `seq_ratio ≤ 1`, i.e. the total size of the
matching blocks is at most `min (len a) (len b)`.  This follows from the
matching-block recursion once every `find_longest_match` result lies
inside its rectangle, which is proved by invariants on the dynamic
programme (`RowOk`, `BestOk`) and on the four extension loops. -/

/-- The inner column loop preserves the row and best-state invariants. -/
theorem innerLoop_ok {alo ahi blo bhi i : Nat} {j2lenOld : Nat → Nat} {B : Nat}
    (hOld : RowOk blo B j2lenOld) (hiB : alo + B ≤ i) (hiahi : i < ahi) :
    ∀ (js : List Nat) (newm : Nat → Nat) (best : FlmState),
      RowOk blo (B + 1) newm → BestOk alo ahi blo bhi best →
      RowOk blo (B + 1) (innerLoop blo bhi i j2lenOld js newm best).1 ∧
      BestOk alo ahi blo bhi (innerLoop blo bhi i j2lenOld js newm best).2
  | [], newm, best => fun h1 h2 => ⟨h1, h2⟩
  | j :: js, newm, best => fun h1 h2 => by
    unfold innerLoop
    split
    · exact innerLoop_ok hOld hiB hiahi js newm best h1 h2
    · split
      · exact ⟨h1, h2⟩
      · rename_i hblo hbhi
        have hjblo : blo ≤ j := Nat.le_of_not_lt hblo
        have hjbhi : j < bhi := Nat.lt_of_not_le hbhi
        have hk : (if j = 0 then 0 else j2lenOld (j - 1)) + 1 ≤ B + 1 ∧
            blo + ((if j = 0 then 0 else j2lenOld (j - 1)) + 1) ≤ j + 1 := by
          split
          · omega
          · rcases hOld (j - 1) with h0 | ⟨hc, hB⟩
            · rw [h0]; omega
            · omega
        apply innerLoop_ok hOld hiB hiahi js
        · intro x
          dsimp only
          by_cases hx : x = j
          · rw [if_pos hx]
            right
            subst hx
            exact ⟨hk.2, hk.1⟩
          · rw [if_neg hx]
            exact h1 x
        · dsimp only
          obtain ⟨b1, b2, b3, b4⟩ := h2
          by_cases hlt : best.bestsize < (if j = 0 then 0 else j2lenOld (j - 1)) + 1
          · rw [if_pos hlt]
            refine ⟨?_, ?_, ?_, ?_⟩ <;> dsimp only <;> omega
          · rw [if_neg hlt]
            exact ⟨b1, b2, b3, b4⟩

/-- The row loop preserves the best-state invariant. -/
theorem dpRows_ok {a b : List Char} {alo ahi blo bhi : Nat} :
    ∀ (n s : Nat) (m : Nat → Nat) (B : Nat) (best : FlmState),
      alo ≤ s → s + n ≤ ahi → alo + B ≤ s → RowOk blo B m →
      BestOk alo ahi blo bhi best →
      BestOk alo ahi blo bhi (dpRows a b blo bhi (List.range' s n) m best).2
  | 0, s, m, B, best => fun _ _ _ _ h2 => h2
  | n + 1, s, m, B, best => fun hs hn hB hRow hBest => by
    show BestOk alo ahi blo bhi
      (dpRows a b blo bhi (s :: List.range' (s + 1) n) m best).2
    unfold dpRows
    have hzero : RowOk blo (B + 1) (fun _ => 0) := fun j => Or.inl rfl
    obtain ⟨hRow', hBest'⟩ :=
      innerLoop_ok hRow hB (by omega) (b2j b (a.getD s ' ')) (fun _ => 0) best
        hzero hBest
    exact dpRows_ok n (s + 1) _ (B + 1) _ (by omega) (by omega) (by omega)
      hRow' hBest'

/-- The first extension loop stays inside the rectangle. -/
theorem extLoop1_ok {a b : List Char} {bjunk : Char → Bool}
    {alo ahi blo bhi : Nat} :
    ∀ (fuel : Nat) (st : FlmState), BestOk alo ahi blo bhi st →
      BestOk alo ahi blo bhi (extLoop1 a b bjunk alo blo fuel st)
  | 0, st => fun h => h
  | fuel + 1, st => fun h => by
    unfold extLoop1
    split
    · rename_i hg
      obtain ⟨h1, h2, h3, h4⟩ := h
      refine extLoop1_ok fuel _ ?_
      refine ⟨?_, ?_, ?_, ?_⟩ <;> dsimp only <;> omega
    · exact h

/-- The second extension loop stays inside the rectangle. -/
theorem extLoop2_ok {a b : List Char} {bjunk : Char → Bool}
    {alo ahi blo bhi : Nat} :
    ∀ (fuel : Nat) (st : FlmState), BestOk alo ahi blo bhi st →
      BestOk alo ahi blo bhi (extLoop2 a b bjunk ahi bhi fuel st)
  | 0, st => fun h => h
  | fuel + 1, st => fun h => by
    unfold extLoop2
    split
    · rename_i hg
      obtain ⟨h1, h2, h3, h4⟩ := h
      refine extLoop2_ok fuel _ ?_
      refine ⟨?_, ?_, ?_, ?_⟩ <;> dsimp only <;> omega
    · exact h

/-- The third extension loop stays inside the rectangle. -/
theorem extLoop3_ok {a b : List Char} {bjunk : Char → Bool}
    {alo ahi blo bhi : Nat} :
    ∀ (fuel : Nat) (st : FlmState), BestOk alo ahi blo bhi st →
      BestOk alo ahi blo bhi (extLoop3 a b bjunk alo blo fuel st)
  | 0, st => fun h => h
  | fuel + 1, st => fun h => by
    unfold extLoop3
    split
    · rename_i hg
      obtain ⟨h1, h2, h3, h4⟩ := h
      refine extLoop3_ok fuel _ ?_
      refine ⟨?_, ?_, ?_, ?_⟩ <;> dsimp only <;> omega
    · exact h

/-- The fourth extension loop stays inside the rectangle. -/
theorem extLoop4_ok {a b : List Char} {bjunk : Char → Bool}
    {alo ahi blo bhi : Nat} :
    ∀ (fuel : Nat) (st : FlmState), BestOk alo ahi blo bhi st →
      BestOk alo ahi blo bhi (extLoop4 a b bjunk ahi bhi fuel st)
  | 0, st => fun h => h
  | fuel + 1, st => fun h => by
    unfold extLoop4
    split
    · rename_i hg
      obtain ⟨h1, h2, h3, h4⟩ := h
      refine extLoop4_ok fuel _ ?_
      refine ⟨?_, ?_, ?_, ?_⟩ <;> dsimp only <;> omega
    · exact h

/-- Every `find_longest_match` result lies inside its rectangle. -/
theorem findLongestMatch_ok (a b : List Char) (bjunk : Char → Bool)
    {alo ahi blo bhi : Nat} (h1 : alo ≤ ahi) (h2 : blo ≤ bhi) :
    BestOk alo ahi blo bhi (findLongestMatch a b bjunk alo ahi blo bhi) := by
  unfold findLongestMatch
  apply extLoop4_ok
  apply extLoop3_ok
  apply extLoop2_ok
  apply extLoop1_ok
  exact dpRows_ok (ahi - alo) alo (fun _ => 0) 0 ⟨alo, blo, 0⟩
    (le_refl alo) (by omega) (by omega) (fun j => Or.inl rfl)
    ⟨le_refl alo, by simpa using h1, le_refl blo, by simpa using h2⟩

/-- The total matching-block size is at most each side of the rectangle. -/
theorem matchTotal_le (a b : List Char) (bjunk : Char → Bool) :
    ∀ (fuel alo ahi blo bhi : Nat), alo ≤ ahi → blo ≤ bhi →
      matchTotal a b bjunk fuel alo ahi blo bhi ≤ ahi - alo ∧
      matchTotal a b bjunk fuel alo ahi blo bhi ≤ bhi - blo
  | 0, alo, ahi, blo, bhi => fun _ _ => by
    unfold matchTotal
    omega
  | fuel + 1, alo, ahi, blo, bhi => fun h1 h2 => by
    unfold matchTotal
    have hb := findLongestMatch_ok a b bjunk h1 h2
    obtain ⟨hb1, hb2, hb3, hb4⟩ := hb
    dsimp only
    split
    · omega
    · obtain ⟨hL1, hL2⟩ := matchTotal_le a b bjunk fuel alo
        (findLongestMatch a b bjunk alo ahi blo bhi).besti blo
        (findLongestMatch a b bjunk alo ahi blo bhi).bestj (by omega) (by omega)
      obtain ⟨hR1, hR2⟩ := matchTotal_le a b bjunk fuel
        ((findLongestMatch a b bjunk alo ahi blo bhi).besti +
          (findLongestMatch a b bjunk alo ahi blo bhi).bestsize) ahi
        ((findLongestMatch a b bjunk alo ahi blo bhi).bestj +
          (findLongestMatch a b bjunk alo ahi blo bhi).bestsize) bhi
        (by omega) (by omega)
      exact ⟨by omega, by omega⟩

/-- The `SequenceMatcher` ratio lies in `[0, 1]`. -/
theorem seqSim_bounds (a b : List Char) : 0 ≤ seqSim a b ∧ seqSim a b ≤ 1 := by
  unfold seqSim
  split
  · norm_num
  · rename_i hlen
    obtain ⟨hM1, hM2⟩ := matchTotal_le a b (fun _ => false)
      (a.length + b.length + 1) 0 a.length 0 b.length (by omega) (by omega)
    have hpos : (0 : ℚ) < (a.length : ℚ) + (b.length : ℚ) := by
      have : 0 < a.length + b.length := Nat.pos_of_ne_zero hlen
      exact_mod_cast this
    constructor
    · positivity
    · rw [div_le_one hpos]
      have : 2 * matchTotal a b (fun _ => false) (a.length + b.length + 1)
          0 a.length 0 b.length ≤ a.length + b.length := by omega
      exact_mod_cast this

/-- The token-overlap sub-score lies in `[0, 1]`. -/
theorem wordOverlap_bounds (t1 t2 : List Char) :
    0 ≤ wordOverlap t1 t2 ∧ wordOverlap t1 t2 ≤ 1 := by
  unfold wordOverlap
  dsimp only
  split
  · norm_num
  · split
    · rename_i hpos
      have hposq : (0 : ℚ) < ((wordSet t1 ∪ wordSet t2).card : ℚ) := by
        exact_mod_cast hpos
      constructor
      · positivity
      · rw [div_le_one hposq]
        exact_mod_cast Finset.card_le_card
          ((Finset.inter_subset_left).trans Finset.subset_union_left)
    · norm_num

/-- The trigram sub-score lies in `[0, 1]`. -/
theorem ngramSim_bounds (t1 t2 : List Char) :
    0 ≤ ngramSim t1 t2 ∧ ngramSim t1 t2 ≤ 1 := by
  unfold ngramSim
  dsimp only
  split
  · norm_num
  · split
    · rename_i hpos
      have hposq : (0 : ℚ) < ((ngrams t1 3 ∪ ngrams t2 3).card : ℚ) := by
        exact_mod_cast hpos
      constructor
      · positivity
      · rw [div_le_one hposq]
        exact_mod_cast Finset.card_le_card
          ((Finset.inter_subset_left).trans Finset.subset_union_left)
    · norm_num

/-- C6 (amended): the title similarity score is bounded:
`0 ≤ score(a, b) ≤ 100` for every pair of title strings.  (Symmetry fails
in general, as the counterexample shows.) -/
theorem c6_score_bounded (t1 t2 : String) :
    0 ≤ calcTitleSimilarity t1 t2 ∧ calcTitleSimilarity t1 t2 ≤ 100 := by
  unfold calcTitleSimilarity
  obtain ⟨hs0, hs1⟩ := seqSim_bounds t1.data t2.data
  obtain ⟨hw0, hw1⟩ := wordOverlap_bounds t1.data t2.data
  obtain ⟨hn0, hn1⟩ := ngramSim_bounds t1.data t2.data
  constructor <;> nlinarith

/-! ## C7: the self-similarity score

For `ratio(a, a)` the dynamic programme always keeps a diagonal best
block (`besti = bestj`): a chain ending at `(i, j)` with `j < i` is
dominated by the diagonal run already recorded at row `j`, the diagonal
column `j = i` computes exactly the current run, and a column `j > i` is
dominated by the diagonal column processed earlier in the same row.  The
extension loops then push any diagonal block to the full string. -/

/-- Members of `b2j b c` are positions of the (non-popular) character `c`. -/
theorem b2j_mem {b : List Char} {c : Char} {j : Nat} (h : j ∈ b2j b c) :
    b.getD j ' ' = c ∧ j < b.length ∧ popularChar b c = false := by
  unfold b2j at h
  split at h
  · simp at h
  · rename_i hp
    rw [List.mem_filter] at h
    exact ⟨by simpa using h.2, List.mem_range.mp h.1, by simpa using hp⟩

/-- A non-popular in-range position occurs in its own `b2j` list. -/
theorem b2j_self_mem {a : List Char} {i : Nat} (hin : i < a.length)
    (hpop : popularChar a (a.getD i ' ') = false) :
    i ∈ b2j a (a.getD i ' ') := by
  unfold b2j
  rw [if_neg (by rw [hpop]; simp)]
  exact List.mem_filter.mpr ⟨List.mem_range.mpr hin, by simp⟩

/-- The `b2j` position lists are strictly ascending. -/
theorem b2j_sorted (b : List Char) (c : Char) : (b2j b c).Pairwise (· < ·) := by
  unfold b2j
  split
  · simp
  · exact (List.pairwise_lt_range _).filter _

/-- `runEnd` at a non-popular position extends the previous run. -/
theorem runEnd_nonpop {a : List Char} {j : Nat}
    (h : popularChar a (a.getD j ' ') = false) :
    runEnd a j = (if j = 0 then 0 else runEnd a (j - 1)) + 1 := by
  cases j with
  | zero =>
    unfold runEnd
    rw [if_neg (by rw [h]; simp)]
    norm_num
  | succ m =>
    show (if popularChar a (a.getD (m + 1) ' ') = true then 0 else runEnd a m + 1) =
      (if m + 1 = 0 then 0 else runEnd a (m + 1 - 1)) + 1
    rw [if_neg (by rw [h]; simp), if_neg (Nat.succ_ne_zero m), Nat.add_sub_cancel]

/-- `runEnd` at a popular position is zero. -/
theorem runEnd_pop {a : List Char} {j : Nat}
    (h : popularChar a (a.getD j ' ') = true) : runEnd a j = 0 := by
  cases j <;> (unfold runEnd; rw [if_pos (by rw [h])])

/-- The inner column loop of a self-comparison preserves the diagonal
invariant and computes the exact diagonal chain value. -/
theorem innerSelf (a : List Char) (i : Nat) (hin : i < a.length)
    (hpop : popularChar a (a.getD i ' ') = false)
    (old : Nat → Nat) (hOld : OldRow a i old) :
    ∀ (js : List Nat) (newm : Nat → Nat) (best : FlmState),
      js.Pairwise (· < ·) →
      (∀ j ∈ js, a.getD j ' ' = a.getD i ' ' ∧ j < a.length) →
      (i ∈ js ∨ runEnd a i ≤ best.bestsize) →
      (∀ x, newm x ≤ runEnd a x) →
      (∀ x, newm x ≤ runEnd a i) →
      (i ∈ js ∨ newm i = runEnd a i) →
      best.besti = best.bestj →
      (∀ t, t < i → runEnd a t ≤ best.bestsize) →
      (∀ x, (innerLoop 0 a.length i old js newm best).1 x ≤ runEnd a x) ∧
      (∀ x, (innerLoop 0 a.length i old js newm best).1 x ≤ runEnd a i) ∧
      (innerLoop 0 a.length i old js newm best).1 i = runEnd a i ∧
      (innerLoop 0 a.length i old js newm best).2.besti =
        (innerLoop 0 a.length i old js newm best).2.bestj ∧
      (∀ t, t < i + 1 → runEnd a t ≤ (innerLoop 0 a.length i old js newm best).2.bestsize)
  | [], newm, best => fun _ _ h3 h4 h5 h6 h7 h8 => by
    refine ⟨h4, h5, ?_, h7, ?_⟩
    · rcases h6 with h6 | h6
      · exact absurd h6 (by simp)
      · exact h6
    · intro t ht
      rcases Nat.lt_or_ge t i with ht' | ht'
      · exact h8 t ht'
      · have : t = i := by omega
        subst this
        rcases h3 with h3 | h3
        · exact absurd h3 (by simp)
        · exact h3
  | j :: js, newm, best => fun hsort hmem h3 h4 h5 h6 h7 h8 => by
    have hj := hmem j (by simp)
    have hjpop : popularChar a (a.getD j ' ') = false := by rw [hj.1]; exact hpop
    have hrunj : runEnd a j = (if j = 0 then 0 else runEnd a (j - 1)) + 1 :=
      runEnd_nonpop hjpop
    have hruni : runEnd a i = (if i = 0 then 0 else runEnd a (i - 1)) + 1 :=
      runEnd_nonpop hpop
    have hkj : (if j = 0 then 0 else old (j - 1)) + 1 ≤ runEnd a j := by
      have : (if j = 0 then 0 else old (j - 1)) ≤
          (if j = 0 then 0 else runEnd a (j - 1)) := by
        split
        · exact le_refl 0
        · exact hOld.1 (j - 1)
      omega
    have hki : (if j = 0 then 0 else old (j - 1)) + 1 ≤ runEnd a i := by
      rcases Nat.eq_zero_or_pos i with hi0 | hi0
      · have hz := hOld.2.1 hi0
        have : (if j = 0 then 0 else old (j - 1)) = 0 := by
          split
          · rfl
          · exact hz (j - 1)
        omega
      · have hb1 : (if j = 0 then 0 else old (j - 1)) ≤ runEnd a (i - 1) := by
          split
          · exact Nat.zero_le _
          · exact hOld.2.2.1 hi0 (j - 1)
        have hb2 : runEnd a i = runEnd a (i - 1) + 1 := by
          rw [hruni, if_neg (by omega : ¬ i = 0)]
        omega
    unfold innerLoop
    rw [if_neg (Nat.not_lt_zero j), if_neg (Nat.not_le.mpr hj.2)]
    dsimp only
    rcases Nat.lt_trichotomy j i with hji | hji | hji
    · -- column left of the diagonal: dominated, no update
      have hnoup : ¬ best.bestsize < (if j = 0 then 0 else old (j - 1)) + 1 := by
        have := h8 j hji
        omega
      rw [if_neg hnoup]
      apply innerSelf a i hin hpop old hOld js _ best (hsort.of_cons)
        (fun x hx => hmem x (by simp [hx]))
      · rcases h3 with h3 | h3
        · rcases List.mem_cons.mp h3 with h | h
          · omega
          · exact Or.inl h
        · exact Or.inr h3
      · intro x
        dsimp only
        by_cases hx : x = j
        · rw [if_pos hx]; subst hx; exact hkj
        · rw [if_neg hx]; exact h4 x
      · intro x
        dsimp only
        by_cases hx : x = j
        · rw [if_pos hx]; exact hki
        · rw [if_neg hx]; exact h5 x
      · dsimp only
        rw [if_neg (by omega)]
        rcases h6 with h6 | h6
        · rcases List.mem_cons.mp h6 with h | h
          · omega
          · exact Or.inl h
        · exact Or.inr h6
      · exact h7
      · exact h8
    · -- the diagonal column: computes exactly the current run
      subst hji
      have hkeq : (if j = 0 then 0 else old (j - 1)) + 1 = runEnd a j := by
        rcases Nat.eq_zero_or_pos j with hj0 | hj0
        · subst hj0
          simp [hrunj]
        · rw [if_neg (by omega), hOld.2.2.2 hj0, hrunj, if_neg (by omega)]
      by_cases hlt : best.bestsize < (if j = 0 then 0 else old (j - 1)) + 1
      · rw [if_pos hlt]
        apply innerSelf a j hin hpop old hOld js _ _ (hsort.of_cons)
          (fun x hx => hmem x (by simp [hx]))
        · exact Or.inr (by dsimp only; omega)
        · intro x
          dsimp only
          by_cases hx : x = j
          · rw [if_pos hx]; subst hx; exact hkj
          · rw [if_neg hx]; exact h4 x
        · intro x
          dsimp only
          by_cases hx : x = j
          · rw [if_pos hx]; exact hki
          · rw [if_neg hx]; exact h5 x
        · exact Or.inr (by rw [if_pos rfl]; omega)
        · rfl
        · intro t ht
          dsimp only
          have := h8 t ht
          omega
      · rw [if_neg hlt]
        apply innerSelf a j hin hpop old hOld js _ best (hsort.of_cons)
          (fun x hx => hmem x (by simp [hx]))
        · exact Or.inr (by omega)
        · intro x
          dsimp only
          by_cases hx : x = j
          · rw [if_pos hx]; subst hx; exact hkj
          · rw [if_neg hx]; exact h4 x
        · intro x
          dsimp only
          by_cases hx : x = j
          · rw [if_pos hx]; exact hki
          · rw [if_neg hx]; exact h5 x
        · exact Or.inr (by rw [if_pos rfl]; omega)
        · exact h7
        · exact h8
    · -- column right of the diagonal: the diagonal was processed first
      have hdone : runEnd a i ≤ best.bestsize := by
        rcases h3 with h3 | h3
        · rcases List.mem_cons.mp h3 with h | h
          · omega
          · have := List.rel_of_pairwise_cons hsort h
            omega
        · exact h3
      have hnoup : ¬ best.bestsize < (if j = 0 then 0 else old (j - 1)) + 1 := by
        omega
      rw [if_neg hnoup]
      apply innerSelf a i hin hpop old hOld js _ best (hsort.of_cons)
        (fun x hx => hmem x (by simp [hx]))
      · exact Or.inr hdone
      · intro x
        dsimp only
        by_cases hx : x = j
        · rw [if_pos hx]; subst hx; exact hkj
        · rw [if_neg hx]; exact h4 x
      · intro x
        dsimp only
        by_cases hx : x = j
        · rw [if_pos hx]; exact hki
        · rw [if_neg hx]; exact h5 x
      · dsimp only
        rw [if_neg (by omega)]
        rcases h6 with h6 | h6
        · rcases List.mem_cons.mp h6 with h | h
          · omega
          · exact Or.inl h
        · exact Or.inr h6
      · exact h7
      · exact h8

/-- A popular character has an empty `b2j` entry. -/
theorem b2j_popular {b : List Char} {c : Char}
    (h : popularChar b c = true) : b2j b c = [] := by
  unfold b2j
  rw [if_pos h]

/-- The self-comparison dynamic programme always ends with a diagonal
best block. -/
theorem dpRowsSelf (a : List Char) :
    ∀ (n s : Nat) (old : Nat → Nat) (best : FlmState),
      s + n = a.length →
      OldRow a s old →
      best.besti = best.bestj →
      (∀ t, t < s → runEnd a t ≤ best.bestsize) →
      (dpRows a a 0 a.length (List.range' s n) old best).2.besti =
        (dpRows a a 0 a.length (List.range' s n) old best).2.bestj
  | 0, s, old, best => fun _ _ h3 _ => h3
  | n + 1, s, old, best => fun hsn hOld h3 h4 => by
    rw [List.range'_succ]
    unfold dpRows
    dsimp only
    cases hpop : popularChar a (a.getD s ' ') with
    | false =>
      have hin : s < a.length := by omega
      obtain ⟨o1, o2, o3, o4, o5⟩ := innerSelf a s hin hpop old hOld
        (b2j a (a.getD s ' ')) (fun _ => 0) best
        (b2j_sorted a _)
        (fun j hj => ⟨(b2j_mem hj).1, (b2j_mem hj).2.1⟩)
        (Or.inl (b2j_self_mem hin hpop))
        (fun _ => Nat.zero_le _)
        (fun _ => Nat.zero_le _)
        (Or.inl (b2j_self_mem hin hpop))
        h3 h4
      apply dpRowsSelf a n (s + 1) _ _ (by omega) ?_ o4 ?_
      · exact ⟨o1, fun h => absurd h (Nat.succ_ne_zero s), fun _ j => o2 j, fun _ => o3⟩
      · intro t ht
        exact o5 t ht
    | true =>
      rw [b2j_popular hpop]
      apply dpRowsSelf a n (s + 1) _ _ (by omega) ?_ h3 ?_
      · refine ⟨fun _ => Nat.zero_le _, fun _ _ => rfl, fun _ _ => Nat.zero_le _,
          fun _ => ?_⟩
        show (0 : Nat) = runEnd a (s + 1 - 1)
        rw [show s + 1 - 1 = s from rfl, runEnd_pop hpop]
      · intro t ht
        rcases Nat.lt_or_ge t s with h | h
        · exact h4 t h
        · have : t = s := by omega
          subst this
          rw [runEnd_pop hpop]
          exact Nat.zero_le _

/-- The first extension loop drives a diagonal block all the way to the
left margin in a self-comparison. -/
theorem extLoop1_self (a : List Char) :
    ∀ (fuel d s : Nat), d ≤ fuel →
      extLoop1 a a (fun _ => false) 0 0 fuel ⟨d, d, s⟩ = ⟨0, 0, d + s⟩
  | fuel, 0, s => fun _ => by
    rw [Nat.zero_add]
    cases fuel with
    | zero => rfl
    | succ f =>
      unfold extLoop1
      rw [if_neg (by rintro ⟨h, -⟩; dsimp only at h; omega)]
  | fuel, d + 1, s => fun hd => by
    cases fuel with
    | zero => omega
    | succ f =>
      unfold extLoop1
      rw [if_pos ⟨Nat.succ_pos d, Nat.succ_pos d, rfl, rfl⟩]
      show extLoop1 a a (fun _ => false) 0 0 f ⟨d, d, s + 1⟩ = ⟨0, 0, d + 1 + s⟩
      rw [extLoop1_self a f d (s + 1) (by omega)]
      congr 1
      omega

/-- The second extension loop extends a diagonal block anchored at the
origin to the full string in a self-comparison. -/
theorem extLoop2_self (a : List Char) :
    ∀ (fuel s : Nat), s ≤ a.length → a.length ≤ s + fuel →
      extLoop2 a a (fun _ => false) a.length a.length fuel ⟨0, 0, s⟩ =
        ⟨0, 0, a.length⟩
  | 0, s => fun h1 h2 => by
    have : s = a.length := by omega
    subst this
    rfl
  | fuel + 1, s => fun h1 h2 => by
    rcases Nat.lt_or_ge s a.length with hlt | hge
    · unfold extLoop2
      rw [if_pos ⟨by simpa using hlt, by simpa using hlt, rfl, rfl⟩]
      show extLoop2 a a (fun _ => false) a.length a.length fuel ⟨0, 0, s + 1⟩ =
        ⟨0, 0, a.length⟩
      exact extLoop2_self a fuel (s + 1) (by omega) (by omega)
    · have : s = a.length := by omega
      subst this
      unfold extLoop2
      rw [if_neg (by rintro ⟨h, -⟩; dsimp only at h; omega)]

/-- With an empty junk set the third extension loop never fires. -/
theorem extLoop3_noop (a b : List Char) (alo blo : Nat) :
    ∀ (fuel : Nat) (st : FlmState),
      extLoop3 a b (fun _ => false) alo blo fuel st = st
  | 0, st => rfl
  | fuel + 1, st => by
    unfold extLoop3
    rw [if_neg (by rintro ⟨-, -, h, -⟩; exact absurd h (by simp))]

/-- With an empty junk set the fourth extension loop never fires. -/
theorem extLoop4_noop (a b : List Char) (ahi bhi : Nat) :
    ∀ (fuel : Nat) (st : FlmState),
      extLoop4 a b (fun _ => false) ahi bhi fuel st = st
  | 0, st => rfl
  | fuel + 1, st => by
    unfold extLoop4
    rw [if_neg (by rintro ⟨-, -, h, -⟩; exact absurd h (by simp))]

/-- `find_longest_match` of a string against itself over the full range
is the whole string. -/
theorem findLongestMatch_self (a : List Char) :
    findLongestMatch a a (fun _ => false) 0 a.length 0 a.length =
      ⟨0, 0, a.length⟩ := by
  unfold findLongestMatch
  dsimp only
  have hdiag := dpRowsSelf a (a.length - 0) 0 (fun _ => 0) ⟨0, 0, 0⟩ (by omega)
    ⟨fun _ => Nat.zero_le _, fun _ _ => rfl, fun h => absurd h (lt_irrefl 0),
      fun h => absurd h (lt_irrefl 0)⟩
    rfl (fun t ht => absurd ht (Nat.not_lt_zero t))
  have hb := @dpRows_ok a a 0 a.length 0 a.length
    (a.length - 0) 0 (fun _ => 0) 0 ⟨0, 0, 0⟩
    (Nat.zero_le 0) (by omega) (by omega) (fun _ => Or.inl rfl)
    ⟨Nat.le_refl 0, Nat.zero_le _, Nat.le_refl 0, Nat.zero_le _⟩
  set dp := (dpRows a a 0 a.length (List.range' 0 (a.length - 0)) (fun _ => 0)
    ⟨0, 0, 0⟩).2 with hdp
  obtain ⟨hb1, hb2, hb3, hb4⟩ := hb
  have hshape : dp = ⟨dp.besti, dp.besti, dp.bestsize⟩ := by
    cases hdpc : dp with
    | mk bi bj bs =>
      rw [hdpc] at hdiag
      simp at hdiag
      simp [hdiag]
  rw [hshape, extLoop1_self a dp.besti dp.besti dp.bestsize (le_refl _)]
  rw [extLoop2_self a a.length (dp.besti + dp.bestsize) (by omega) (by omega)]
  rw [extLoop3_noop, extLoop4_noop]

/-- An empty row range produces no matching blocks. -/
theorem matchTotal_degenerate (a b : List Char) (bjunk : Char → Bool) :
    ∀ (fuel blo bhi alo : Nat),
      matchTotal a b bjunk fuel alo alo blo bhi = 0
  | 0, _, _, _ => rfl
  | fuel + 1, blo, bhi, alo => by
    unfold matchTotal
    dsimp only
    have h1 : findLongestMatch a b bjunk alo alo blo bhi = ⟨alo, blo, 0⟩ := by
      unfold findLongestMatch
      have e0 : List.range' alo (alo - alo) = [] := by
        rw [Nat.sub_self]
        rfl
      rw [e0]
      dsimp only [dpRows]
      have s1 : extLoop1 a b bjunk alo blo alo ⟨alo, blo, 0⟩ = ⟨alo, blo, 0⟩ := by
        cases alo with
        | zero => rfl
        | succ m =>
          unfold extLoop1
          rw [if_neg (by rintro ⟨h, -⟩; dsimp only at h; omega)]
      rw [s1]
      have s2 : extLoop2 a b bjunk alo bhi alo ⟨alo, blo, 0⟩ = ⟨alo, blo, 0⟩ := by
        cases alo with
        | zero => rfl
        | succ m =>
          unfold extLoop2
          rw [if_neg (by rintro ⟨h, -⟩; dsimp only at h; omega)]
      rw [s2]
      have s3 : extLoop3 a b bjunk alo blo alo ⟨alo, blo, 0⟩ = ⟨alo, blo, 0⟩ := by
        cases alo with
        | zero => rfl
        | succ m =>
          unfold extLoop3
          rw [if_neg (by rintro ⟨h, -⟩; dsimp only at h; omega)]
      rw [s3]
      cases alo with
      | zero => rfl
      | succ m =>
        unfold extLoop4
        rw [if_neg (by rintro ⟨h, -⟩; dsimp only at h; omega)]
    rw [h1, if_pos rfl]

/-- The total matching-block size of a self-comparison is the whole
string. -/
theorem matchTotal_self (a : List Char) (ha : a ≠ []) :
    matchTotal a a (fun _ => false) (a.length + a.length + 1)
      0 a.length 0 a.length = a.length := by
  have hn : 0 < a.length := List.length_pos.mpr ha
  unfold matchTotal
  dsimp only
  rw [findLongestMatch_self]
  rw [if_neg (by simpa using hn.ne')]
  rw [show (⟨0, 0, a.length⟩ : FlmState).besti = 0 from rfl,
    show (⟨0, 0, a.length⟩ : FlmState).bestj = 0 from rfl,
    show (⟨0, 0, a.length⟩ : FlmState).bestsize = a.length from rfl]
  rw [matchTotal_degenerate, Nat.zero_add, matchTotal_degenerate]
  omega

/-- `ratio(a, a) = 1` for a non-empty string. -/
theorem seqSim_self (a : List Char) (ha : a ≠ []) : seqSim a a = 1 := by
  have hn : 0 < a.length := List.length_pos.mpr ha
  unfold seqSim
  rw [if_neg (by omega)]
  rw [matchTotal_self a ha]
  rw [div_eq_one_iff_eq (by positivity)]
  ring

/-- The token-overlap of a string with itself is 1 when it has a token. -/
theorem wordOverlap_self (t : List Char) (h : splitWs t ≠ []) :
    wordOverlap t t = 1 := by
  unfold wordOverlap
  dsimp only
  have hne : wordSet t ≠ ∅ := by
    unfold wordSet
    rcases hsp : splitWs t with _ | ⟨w, ws⟩
    · exact absurd hsp h
    · simp
  rw [if_neg (by simp [hne])]
  have hcard0 : 0 < (wordSet t).card :=
    Finset.card_pos.mpr (Finset.nonempty_iff_ne_empty.mpr hne)
  rw [if_pos (by rw [Finset.union_self]; exact hcard0), Finset.union_self,
    Finset.inter_self]
  rw [div_self (by exact_mod_cast hcard0.ne')]

/-- The trigram overlap of a string with itself is 1 from length 3 on,
and 0 below (empty trigram set). -/
theorem ngramSim_self (t : List Char) :
    ngramSim t t = if 3 ≤ t.length then 1 else 0 := by
  unfold ngramSim
  dsimp only
  by_cases h3 : 3 ≤ t.length
  · have hne : ngrams t 3 ≠ ∅ := by
      unfold ngrams
      apply Finset.ne_empty_of_mem
      exact List.mem_toFinset.mpr
        (List.mem_map_of_mem _ (List.mem_range.mpr (by omega : 0 < t.length + 1 - 3)))
    have hcard0 : 0 < (ngrams t 3).card :=
      Finset.card_pos.mpr (Finset.nonempty_iff_ne_empty.mpr hne)
    rw [if_neg (by simp [hne]), if_pos (by rw [Finset.union_self]; exact hcard0),
      Finset.union_self, Finset.inter_self,
      div_self (by exact_mod_cast hcard0.ne'), if_pos h3]
  · have hemp : ngrams t 3 = ∅ := by
      unfold ngrams
      rw [show t.length + 1 - 3 = 0 by omega]
      rfl
    rw [if_pos (Or.inl hemp), if_neg h3]

/-- C7 (amended): the self-similarity of any title with at least one
non-whitespace token is 100 from length 3 on, and 70 for shorter
non-empty titles (whose trigram component is 0). -/
theorem c7_self_score (a : String) (hw : splitWs a.data ≠ []) :
    calcTitleSimilarity a a = if 3 ≤ a.data.length then (100 : ℚ) else 70 := by
  have ha : a.data ≠ [] := by
    intro h
    rw [h] at hw
    exact hw rfl
  simp only [calcTitleSimilarity]
  rw [seqSim_self a.data ha, wordOverlap_self a.data hw, ngramSim_self a.data]
  by_cases h3 : 3 ≤ a.data.length
  · rw [if_pos h3, if_pos h3]
    norm_num
  · rw [if_neg h3, if_neg h3]
    norm_num

/-- C7 witness: the concrete three-character title "abc". -/
theorem c7_witness :
    splitWs "abc".data ≠ [] ∧
    calcTitleSimilarity "abc" "abc" =
      if 3 ≤ "abc".data.length then (100 : ℚ) else 70 :=
  ⟨by decide, c7_self_score "abc" (by decide)⟩

end AHRQ
